import Mathlib

/-!
Verification of the Go-Model regression solver core.

The Go repository stores matrices either as `[][]float64` slices (the
slice-based OLS in `internal/regression/linear/ols.go`) or as gonum
`*mat.Dense` / `*mat.VecDense` values (the models under
`internal/models/linear`).  Floating-point numbers are embedded as exact
rationals `ℚ` wherever the code only uses field operations and
comparisons, and as real numbers `ℝ` where the code calls `math.Exp` or
`math.Sqrt`.  Fallible Go functions returning `error` are embedded as
`Except` / `Option`; gonum panics (which are not Go `error` values) are
modelled as explicit panic outcomes.
-/

namespace GoModel

open Matrix

/-- Error taxonomy of the solver core, following the error values the Go
code constructs: "matrix is singular" (`solveLinearSystem`), "empty
feature matrix" and "mismatched dimensions" (`OLS.Fit`), "matrix is not
positive definite" (`Ridge.Fit`), "failed to invert matrix"
(`OLS.Fit`, gonum variant). -/
inductive FitError where
  | singularMatrix
  | emptyMatrix
  | dimensionMismatch
  | notPositiveDefinite
  | invertFailed
  deriving DecidableEq

/-- Near-zero pivot threshold `1e-10` from `solveLinearSystem`
(the float literal `1e-10` denotes exactly 10⁻¹⁰ = 2⁻¹⁰·5⁻¹⁰ scaled,
embedded here as the rational 1/10^10). -/
def geps : ℚ := 1 / 10 ^ 10

/-- Dot product of two lists, the dense per-row product used throughout
the slice-based Go code. -/
def dotL (xs ys : List ℚ) : ℚ :=
  (List.zipWith (fun a b => a * b) xs ys).sum

/-- Pivot search loop of `solveLinearSystem`: starting from the current
row, scan the remaining rows and remember the first row whose leading
entry has strictly greater absolute value than the best so far
(`if math.Abs(augmented[k][i]) > math.Abs(augmented[maxRow][i])`). -/
def pivotIdxAux : List (List ℚ) → ℚ → ℕ → ℕ → ℕ
  | [], _, best, _ => best
  | r :: rs, m, best, cur =>
    if |r.headD 0| > m then pivotIdxAux rs |r.headD 0| cur (cur + 1)
    else pivotIdxAux rs m best (cur + 1)

/-- Index (into the current block of rows) of the pivot row selected by
`solveLinearSystem` at the current column: the first row attaining the
maximal absolute leading entry. -/
def pivotIdx : List (List ℚ) → ℕ
  | [] => 0
  | r :: rs => pivotIdxAux rs |r.headD 0| 0 1

/-- Row swap `augmented[i], augmented[maxRow] = augmented[maxRow],
augmented[i]` of `solveLinearSystem`, expressed on the block of rows at
and below the current column: the selected row moves to the front and
the old front row takes its place. -/
def swapToFront : List (List ℚ) → ℕ → List (List ℚ)
  | [], _ => []
  | r :: rs, 0 => r :: rs
  | r :: rs, j + 1 => rs.getD j [] :: rs.set j r

/-- Elimination of one row below the pivot in `solveLinearSystem`:
`factor := augmented[k][i] / augmented[i][i]` and
`augmented[k][j] -= factor * augmented[i][j]` for the columns from the
pivot column on.  The leading entry becomes exactly `0` in exact
arithmetic and is dropped, so the recursion continues on the remaining
columns. -/
def elimStep (pivot r : List ℚ) : List ℚ :=
  (List.zipWith (fun a b => a - r.headD 0 / pivot.headD 0 * b) r pivot).tail

/-- One step of back substitution in `solveLinearSystem`:
`x[i] = (augmented[i][n] - Σ_{j>i} augmented[i][j]·x[j]) / augmented[i][i]`. -/
def backSubStep (pivot : List ℚ) (xs : List ℚ) : List ℚ :=
  (pivot.getLastD 0 - dotL pivot.tail.dropLast xs) / pivot.headD 0 :: xs

/-- Gaussian elimination loop of `solveLinearSystem`, structured on the
loop counter `i = 0..n-1` (the fuel, one unit per column).  At each
column the first row with maximal absolute value is swapped into
position; if the pivot's absolute value is below `1e-10` the function
fails with the singular-matrix error; otherwise the rows below are
eliminated and, after the recursive solve, one back-substitution step
recovers the current unknown.  The recursion on the rows below the
pivot drops the eliminated leading column (exactly zero in exact
arithmetic), which the Go loop never reads again. -/
def solveGEAux : ℕ → List (List ℚ) → Except FitError (List ℚ)
  | _, [] => .ok []
  | 0, _ :: _ => .ok []
  | fuel + 1, r :: rs =>
    let rows := swapToFront (r :: rs) (pivotIdx (r :: rs))
    let pivot := rows.headD []
    if |pivot.headD 0| < geps then .error .singularMatrix
    else (solveGEAux fuel (rows.tail.map (elimStep pivot))).map (backSubStep pivot)

/-- The elimination run on the full augmented matrix: the Go loop bound
`i < n` is the number of rows. -/
def solveGE (rows : List (List ℚ)) : Except FitError (List ℚ) :=
  solveGEAux rows.length rows

/-- One full pivot-swap-eliminate stage of the elimination, without the
small-pivot test; used to describe the state of the algorithm at each
column. -/
def geStep : List (List ℚ) → List (List ℚ)
  | [] => []
  | r :: rs =>
    let rows := swapToFront (r :: rs) (pivotIdx (r :: rs))
    let pivot := rows.headD []
    rows.tail.map (elimStep pivot)

/-- The pivot value selected (after the swap) at the current column. -/
def stagePivot (rows : List (List ℚ)) : ℚ :=
  ((swapToFront rows (pivotIdx rows)).headD []).headD 0

/-- The augmented matrix `[A | b]` built at the start of
`solveLinearSystem`. -/
def augment (A : List (List ℚ)) (b : List ℚ) : List (List ℚ) :=
  List.zipWith (fun row bi => row ++ [bi]) A b

/-- `OLS.solveLinearSystem(A, b)` from `ols.go`. -/
def solveLinearSystem (A : List (List ℚ)) (b : List ℚ) : Except FitError (List ℚ) :=
  solveGE (augment A b)

/-! ### Slice-based OLS (`internal/regression/linear/ols.go`) -/

/-- The slice-based OLS model: `Coefficients`, `Intercept`,
`FitIntercept`.  An untrained model has an empty coefficient slice. -/
structure OLSSlice where
  coefficients : List ℚ
  intercept : ℚ
  fitIntercept : Bool

/-- `OLS.addIntercept`: prepend a constant-1 entry to every row. -/
def addIntercept (X : List (List ℚ)) : List (List ℚ) :=
  X.map (fun row => 1 :: row)

/-- `OLS.Fit` of the slice-based OLS: empty-matrix and mismatched-length
checks, then the normal equations `XᵗX β = Xᵗy` solved by
`solveLinearSystem`, with the intercept split off the first coefficient
when `FitIntercept` is set. -/
def olsSliceFit (fitIntercept : Bool) (X : List (List ℚ)) (y : List ℚ) :
    Except FitError OLSSlice :=
  if X = [] ∨ X.headD [] = [] then .error .emptyMatrix
  else if y.length ≠ X.length then .error .dimensionMismatch
  else
    let Xw := if fitIntercept then addIntercept X else X
    let nf := (X.headD []).length + (if fitIntercept then 1 else 0)
    let xtx := (List.range nf).map (fun j => (List.range nf).map (fun k =>
      ((List.range X.length).map
        (fun i => (Xw.getD i []).getD j 0 * (Xw.getD i []).getD k 0)).sum))
    let xty := (List.range nf).map (fun j =>
      ((List.range X.length).map
        (fun i => (Xw.getD i []).getD j 0 * y.getD i 0)).sum)
    (solveLinearSystem xtx xty).map (fun coeffs =>
      if fitIntercept then
        { coefficients := coeffs.tail, intercept := coeffs.headD 0, fitIntercept }
      else
        { coefficients := coeffs, intercept := 0, fitIntercept })

/-- Errors returned by the slice-based `Predict`: "model not trained",
"empty input", "mismatched feature dimensions". -/
inductive PredictError where
  | notTrained
  | emptyInput
  | featureMismatch
  deriving DecidableEq

/-- Go runtime panics that gonum raises on malformed use: dereferencing
a nil `*mat.VecDense`, a dimension mismatch (`mat.ErrShape`), a
zero-sized matrix (`mat.ErrZeroLength`), an out-of-range index —
together with the plain Go panics the nonlinear models raise
themselves: "requires single feature input" and "requires positive x
values for prediction". -/
inductive PanicKind where
  | nilPointer
  | shape
  | zeroLength
  | outOfRange
  | singleFeature
  | nonPositiveValue
  deriving DecidableEq

/-- Outcome of a predict call: a value, a Go `error`, or a runtime
panic.  gonum-based models return a bare `*mat.VecDense` (no error
channel), so for them only `ok` and `panic` outcomes are inhabited. -/
inductive PredictResult where
  | ok (ys : List ℚ)
  | err (e : PredictError)
  | panic (p : PanicKind)
  deriving DecidableEq

/-- `OLS.Predict` of the slice-based OLS: not-trained, empty-input and
feature-dimension checks, then `intercept + row · coefficients` per
row. -/
def olsSlicePredict (m : OLSSlice) (X : List (List ℚ)) : PredictResult :=
  if m.coefficients = [] then .err .notTrained
  else if X = [] then .err .emptyInput
  else if (X.headD []).length ≠ m.coefficients.length then .err .featureMismatch
  else .ok (X.map (fun row => m.intercept + dotL row m.coefficients))

/-! ### gonum-based models (`internal/models/linear`)

gonum matrices are rectangular by construction, so a `*mat.Dense` is
embedded as its dimensions `n`, `p` together with an entry function.
Shape mismatches between separate gonum values (for example `X` and
`y`) remain expressible and surface exactly where gonum would panic. -/

/-- Outcome of a gonum-based `Fit`: a model, a Go `error`, or a runtime
panic. -/
inductive FitOutcome (α : Type) where
  | ok (val : α)
  | err (e : FitError)
  | panic (p : PanicKind)

/-- Fitted parameters of a gonum-based linear model: intercept plus one
coefficient per feature. -/
structure LinModel (p : ℕ) where
  intercept : ℚ
  coefficients : Fin p → ℚ

/-- The design matrix with the prepended constant-1 intercept column
(`XWithIntercept` in the Go code). -/
def withInterceptCol (n p : ℕ) (X : Fin n → Fin p → ℚ) :
    Matrix (Fin n) (Fin (p + 1)) ℚ :=
  Matrix.of fun i => Fin.cons 1 (X i)

/-- Leading principal minor of order `k+1`. -/
def leadingMinor {m : ℕ} (A : Matrix (Fin m) (Fin m) ℚ) (k : Fin m) : ℚ :=
  (A.submatrix (Fin.castLE k.isLt) (Fin.castLE k.isLt)).det

/-- Modelled from the spec: `SolveSPD` performs "a symmetric
(Cholesky-style) factorization"; the factorization routine itself is
gonum's `mat.Cholesky.Factorize`, external library code not in this
repository.  In exact arithmetic a symmetric matrix admits a Cholesky
factorization exactly when it is positive definite, which Sylvester's
criterion characterizes as all leading principal minors being
positive. -/
def cholFactorizes {m : ℕ} (A : Matrix (Fin m) (Fin m) ℚ) : Prop :=
  ∀ k : Fin m, 0 < leadingMinor A k

instance {m : ℕ} (A : Matrix (Fin m) (Fin m) ℚ) : Decidable (cholFactorizes A) :=
  inferInstanceAs (Decidable (∀ k, _))

/-- Modelled from the spec: the exact solution of a nonsingular linear
system, as produced by gonum's `Inverse`+`MulVec` (`OLS.Fit`) and
`Cholesky.SolveVecTo` (`Ridge.Fit`), both external library code; in
exact arithmetic both return `A⁻¹ b`, here written with the adjugate so
the definition is executable. -/
def linSolve {m : ℕ} (A : Matrix (Fin m) (Fin m) ℚ) (b : Fin m → ℚ) : Fin m → ℚ :=
  fun i => A.adjugate.mulVec b i / A.det

/-- `OLS.Fit` of the gonum-based OLS (`internal/models/linear/ols.go`):
empty and mismatched-dimension checks, intercept column, normal
equations solved by inverting `XᵗX` (gonum `Inverse` fails exactly on a
singular matrix in exact arithmetic), intercept split off the first
coefficient. -/
def olsFitD (n p : ℕ) (X : Fin n → Fin p → ℚ) (m : ℕ) (y : Fin m → ℚ) :
    FitOutcome (LinModel p) :=
  if n = 0 ∨ p = 0 then .err .emptyMatrix
  else if hm : m = n then
    let XI := withInterceptCol n p X
    let XTX := XIᵀ * XI
    if XTX.det = 0 then .err .invertFailed
    else
      let yv : Fin n → ℚ := fun i => y (Fin.cast hm.symm i)
      let coef := linSolve XTX (XIᵀ.mulVec yv)
      .ok { intercept := coef 0, coefficients := fun j => coef j.succ }
  else .err .dimensionMismatch

/-- The diagonal jitter `1e-10` that `Ridge.Fit` adds before its single
factorization retry. -/
def ridgeJitter : ℚ := 1 / 10 ^ 10

/-- The regularized symmetric matrix `XTXSymmetric` that `Ridge.Fit`
builds: it reads the upper triangle of `XᵗX` (`SetSym(i, j, val)` for
`j ≥ i` mirrors the entry), adding λ on the diagonal except at the
intercept entry `(0,0)`. -/
def ridgeSymmetrize (lam : ℚ) {m : ℕ} (A : Matrix (Fin m) (Fin m) ℚ) :
    Matrix (Fin m) (Fin m) ℚ :=
  Matrix.of fun i j => A (min i j) (max i j) +
    if i = j ∧ (i : ℕ) ≠ 0 then lam else 0

/-- `Ridge.Fit` (`internal/models/linear/ridge.go`): no shape checks;
intercept column (gonum `NewDense` panics on zero rows); `XᵗX` plus λ on
the non-intercept diagonal; Cholesky factorization with a single retry
after adding the `1e-10` diagonal jitter, failing with the
not-positive-definite error if both attempts fail; then `Xᵗy` (gonum
`MulVec` panics when `y`'s length differs from the row count) and the
factorization-based solve.  The `identity := NewDiagDense(...)` value in
the Go code is never read and has no counterpart here. -/
def ridgeFitD (lam : ℚ) (n p : ℕ) (X : Fin n → Fin p → ℚ) (m : ℕ) (y : Fin m → ℚ) :
    FitOutcome (LinModel p) :=
  if n = 0 then .panic .zeroLength
  else
    let XI := withInterceptCol n p X
    let XTX := XIᵀ * XI
    let S := ridgeSymmetrize lam XTX
    let chosen : Option (Matrix (Fin (p + 1)) (Fin (p + 1)) ℚ) :=
      if cholFactorizes S then some S
      else
        let S2 := S + ridgeJitter • (1 : Matrix (Fin (p + 1)) (Fin (p + 1)) ℚ)
        if cholFactorizes S2 then some S2 else none
    match chosen with
    | none => .err .notPositiveDefinite
    | some M =>
      if hm : m = n then
        let yv : Fin n → ℚ := fun i => y (Fin.cast hm.symm i)
        let coef := linSolve M (XIᵀ.mulVec yv)
        .ok { intercept := coef 0, coefficients := fun j => coef j.succ }
      else .panic .shape

/-- The `Ridge` struct: hyperparameter λ, the lazily populated
parameters (`Coefficients` is a nil `*mat.VecDense` before training),
and the `isTrained` flag. -/
structure Ridge where
  lambda : ℚ
  intercept : ℚ
  coefficients : Option (List ℚ)
  isTrained : Bool

/-- `NewRidge(lambda)`. -/
def newRidge (lam : ℚ) : Ridge :=
  { lambda := lam, intercept := 0, coefficients := none, isTrained := false }

/-- `Ridge.Predict`: no trained-state check; `intercept + Σ_j X(i,j)·
coef(j)` per row.  Reading `AtVec` on a nil coefficient vector is a Go
nil-pointer panic (reached as soon as the column loop runs, i.e. when
`p > 0`); an index at or beyond the coefficient length is an
out-of-range panic. -/
def ridgePredictD (r : Ridge) (n p : ℕ) (X : Fin n → Fin p → ℚ) : PredictResult :=
  match r.coefficients with
  | none =>
    if p = 0 then .ok (List.ofFn fun _ : Fin n => r.intercept)
    else .panic .nilPointer
  | some c =>
    if p ≤ c.length then
      .ok (List.ofFn fun i : Fin n => r.intercept + ∑ j : Fin p, X i j * c.getD j 0)
    else .panic .outOfRange

/-- The content of the map returned by `Ridge.GetParameters`: keys
`lambda` and `intercept` always, key `coefficients` only when the
coefficient vector is non-nil. -/
structure RidgeParams where
  lambda : ℚ
  intercept : ℚ
  coefficients : Option (List ℚ)

/-- `Ridge.GetParameters` (`ridge.go`). -/
def ridgeGetParameters (r : Ridge) : RidgeParams :=
  { lambda := r.lambda, intercept := r.intercept, coefficients := r.coefficients }

/-- Modelled from the spec: "a matching `SetParameters` for reload" —
the `ModelSerializer` interface of
`internal/evaluation/model_persistence.go` declares
`SetParameters(params map[string]interface{}) error`, but no model in
the repository implements it.  Faithful to the spec's words, it writes
each supplied parameter back into the model; a key absent from the map
leaves the corresponding field untouched. -/
def ridgeSetParameters (params : RidgeParams) (r : Ridge) : Ridge :=
  { lambda := params.lambda
    intercept := params.intercept
    coefficients := match params.coefficients with
      | none => r.coefficients
      | some c => some c
    isTrained := r.isTrained }

/-! ### Lasso (`internal/models/linear/lasso.go`) -/

/-- Lasso hyperparameters as set by `NewLasso(lambda)`: `MaxIter = 1000`,
`Tol = 1e-4`. -/
structure LassoConfig where
  lambda : ℚ
  maxIter : ℕ
  tol : ℚ

/-- `NewLasso(lambda)`. -/
def newLasso (lam : ℚ) : LassoConfig :=
  { lambda := lam, maxIter := 1000, tol := 1 / 10 ^ 4 }

/-- The partial residual correlation
`rho = (1/n) Σ_i X[i][j]·(y[i] − Σ_{k≠j} X[i][k]·β[k])` of
`Lasso.Fit`. -/
def lassoRho {n p : ℕ} (XI : Fin n → Fin (p + 1) → ℚ) (y : Fin n → ℚ)
    (beta : Fin (p + 1) → ℚ) (j : Fin (p + 1)) : ℚ :=
  (∑ i, XI i j * (y i - ∑ k ∈ Finset.univ.filter (fun k => k ≠ j), XI i k * beta k))
    / (n : ℚ)

/-- The scaled column norm `xjNorm = (Σ_i X[i][j]²) / n` of
`Lasso.Fit`. -/
def lassoXjNorm {n p : ℕ} (XI : Fin n → Fin (p + 1) → ℚ) (j : Fin (p + 1)) : ℚ :=
  (∑ i, XI i j * XI i j) / (n : ℚ)

/-- The soft-threshold branch of `Lasso.Fit`, as the Go code writes it:
`threshold := lambda/xjNorm`; `rho > threshold`, `rho < -threshold`, or
zero. -/
def softThresholdCode (lam s rho : ℚ) : ℚ :=
  let th := lam / s
  if rho > th then (rho - th) / s
  else if rho < -th then (rho + th) / s
  else 0

/-- The sign function, written as the spec's `sign(ρ_j)`. -/
def signQ (x : ℚ) : ℚ :=
  if x > 0 then 1 else if x < 0 then -1 else 0

/-- The spec's wording of the coordinate update, for refinement
comparison with `softThresholdCode`:
`β_j ← sign(ρ_j)·max(|ρ_j|−λ_j/‖X_j‖², 0)/‖X_j‖²` where `‖X_j‖²` is the
column's scaled norm. -/
def softThresholdSpec (lam s rho : ℚ) : ℚ :=
  signQ rho * max (|rho| - lam / s) 0 / s

/-- One coordinate update of `Lasso.Fit`: λ zeroed for the intercept
coordinate `j = 0`, then the soft-threshold update, skipped entirely
when the scaled column norm is not positive. -/
def lassoCoordStep {n p : ℕ} (lam : ℚ) (XI : Fin n → Fin (p + 1) → ℚ)
    (y : Fin n → ℚ) (beta : Fin (p + 1) → ℚ) (j : Fin (p + 1)) :
    Fin (p + 1) → ℚ :=
  let lamj := if j = ⟨0, Nat.succ_pos p⟩ then 0 else lam
  let rho := lassoRho XI y beta j
  let s := lassoXjNorm XI j
  if s > 0 then Function.update beta j (softThresholdCode lamj s rho) else beta

/-- One outer pass of `Lasso.Fit`: coordinates `j = 0..p` in ascending
order. -/
def lassoPass {n p : ℕ} (lam : ℚ) (XI : Fin n → Fin (p + 1) → ℚ)
    (y : Fin n → ℚ) (beta : Fin (p + 1) → ℚ) : Fin (p + 1) → ℚ :=
  (List.finRange (p + 1)).foldl (fun b j => lassoCoordStep lam XI y b j) beta

/-- The convergence measure of `Lasso.Fit`: the maximum absolute
coefficient change across a pass, accumulated from `0.0`. -/
def lassoMaxDiff {p : ℕ} (old new : Fin (p + 1) → ℚ) : ℚ :=
  (List.finRange (p + 1)).foldl (fun m i => max m |new i - old i|) 0

/-- The outer loop of `Lasso.Fit`: up to `maxIter` passes, stopping
early exactly when the maximum absolute coefficient change of a pass
falls below the tolerance. -/
def lassoIterate {n p : ℕ} (lam tol : ℚ) (XI : Fin n → Fin (p + 1) → ℚ)
    (y : Fin n → ℚ) : ℕ → (Fin (p + 1) → ℚ) → (Fin (p + 1) → ℚ)
  | 0, beta => beta
  | fuel + 1, beta =>
    let beta2 := lassoPass lam XI y beta
    if lassoMaxDiff beta beta2 < tol then beta2
    else lassoIterate lam tol XI y fuel beta2

/-- The outer loop again, additionally counting the passes executed;
used to state the iteration bound. -/
def lassoIterateCount {n p : ℕ} (lam tol : ℚ) (XI : Fin n → Fin (p + 1) → ℚ)
    (y : Fin n → ℚ) : ℕ → (Fin (p + 1) → ℚ) → (Fin (p + 1) → ℚ) × ℕ
  | 0, beta => (beta, 0)
  | fuel + 1, beta =>
    let beta2 := lassoPass lam XI y beta
    if lassoMaxDiff beta beta2 < tol then (beta2, 1)
    else
      let r := lassoIterateCount lam tol XI y fuel beta2
      (r.1, r.2 + 1)

/-- `Lasso.Fit`: intercept column, zero-initialized coefficients, the
coordinate-descent outer loop, intercept split off coordinate `0`. -/
def lassoFit {n p : ℕ} (cfg : LassoConfig) (X : Fin n → Fin p → ℚ)
    (y : Fin n → ℚ) : ℚ × (Fin p → ℚ) :=
  let XI := withInterceptCol n p X
  let beta := lassoIterate cfg.lambda cfg.tol XI y cfg.maxIter (fun _ => 0)
  (beta ⟨0, Nat.succ_pos p⟩, fun j => beta j.succ)

/-! ### Logistic regression (`internal/models/linear/logistic.go`)

`sigmoid` calls `math.Exp`, so this part of the embedding lives over
`ℝ` with `Real.exp`; every `float64` a Go caller can supply is finite,
and a finite double embeds as a real number. -/

/-- The clamped `sigmoid` of `logistic.go`: exactly `1` for `z > 30`,
exactly `0` for `z < -30`, `1/(1+e^(−z))` otherwise. -/
noncomputable def sigmoid (z : ℝ) : ℝ :=
  if z > 30 then 1
  else if z < -30 then 0
  else 1 / (1 + Real.exp (-z))

/-- `Logistic.Predict`: `sigmoid(intercept + Σ_j X(i,j)·coef(j))` per
row.  A trained model is a pair of an intercept and a coefficient
vector, which this definition quantifies over in the theorems. -/
noncomputable def logisticPredict {n p : ℕ} (b : ℝ) (w : Fin p → ℝ)
    (X : Fin n → Fin p → ℝ) : Fin n → ℝ :=
  fun i => sigmoid (b + ∑ j, X i j * w j)

/-- `Logistic.PredictClass`: probability at or above the threshold maps
to class `1.0`, below to `0.0`. -/
noncomputable def logisticPredictClass {n p : ℕ} (b : ℝ) (w : Fin p → ℝ)
    (X : Fin n → Fin p → ℝ) (threshold : ℝ) : Fin n → ℝ :=
  fun i => if logisticPredict b w X i ≥ threshold then 1 else 0

/-- `Logistic.Score`: classify with the fixed threshold `0.5`, count the
samples whose predicted class equals the target under exact equality
(`==` on `float64` in Go), divide by the sample count. -/
noncomputable def logisticScore {n p : ℕ} (b : ℝ) (w : Fin p → ℝ)
    (X : Fin n → Fin p → ℝ) (y : Fin n → ℝ) : ℝ :=
  ((Finset.univ.filter
      (fun i => logisticPredictClass b w X (1 / 2) i = y i)).card : ℝ) / (n : ℝ)

/-! ### PLS (`internal/models/linear/pls.go`)

`PLS.Fit` divides only through the guarded scalings
`if norm > 0 { vec.ScaleVec(1.0/norm, vec) }`.  To make
division-by-zero observable, division is embedded as a checked
operation in the `Option` monad: any division with a zero denominator
would collapse the whole fit to `none`.  The target matrix `Y` of the
Go code has a single column (it is built from the target vector), so it
is embedded as a vector. -/

/-- Checked division: `none` exactly on a zero denominator. -/
noncomputable def safeDiv (a d : ℝ) : Option ℝ :=
  if d = 0 then none else some (a / d)

/-- The guarded scaling pattern of `PLS.Fit`:
`if norm > 0 { v.ScaleVec(1.0/norm, v) }` — scale by the checked
reciprocal when the norm is positive, otherwise leave the value
untouched. -/
noncomputable def guardScale {V : Type} [SMul ℝ V] (norm : ℝ) (v : V) : Option V :=
  if 0 < norm then (safeDiv 1 norm).map (fun r => r • v) else some v

/-- Dot product over `ℝ` (gonum `mat.Dot`). -/
noncomputable def dotR {n : ℕ} (u v : Fin n → ℝ) : ℝ := ∑ i, u i * v i

/-- `Xᵀ u`. -/
noncomputable def mulVecT {n p : ℕ} (X : Fin n → Fin p → ℝ) (u : Fin n → ℝ) :
    Fin p → ℝ :=
  fun j => ∑ i, X i j * u i

/-- `X w`. -/
noncomputable def mulVecR {n p : ℕ} (X : Fin n → Fin p → ℝ) (w : Fin p → ℝ) :
    Fin n → ℝ :=
  fun i => ∑ j, X i j * w j

/-- One inner NIPALS iteration of `PLS.Fit` (steps 2–5): `w = Xᵗu/(uᵗu)`
then unit-normalized by its 2-norm, `t = Xw`, `c = Yᵗt/(tᵗt)`,
`u = Yc/(cᵗc)`, each scaling guarded on a positive norm. -/
noncomputable def plsStep {n p : ℕ} (X : Fin n → Fin p → ℝ) (yv : Fin n → ℝ)
    (u : Fin n → ℝ) :
    Option ((Fin p → ℝ) × ℝ × (Fin n → ℝ) × (Fin n → ℝ)) := do
  let w1 := mulVecT X u
  let w2 ← guardScale (dotR u u) w1
  let w ← guardScale (Real.sqrt (dotR w2 w2)) w2
  let t := mulVecR X w
  let c1 := dotR yv t
  let c ← guardScale (dotR t t) c1
  let u1 : Fin n → ℝ := fun i => yv i * c
  let u2 ← guardScale (c * c) u1
  pure (w, c, t, u2)

/-- The inner NIPALS loop of `PLS.Fit`: capped at 100 iterations,
stopping early when `‖u_new − u_old‖₂ < 1e-6`; the weights, the
1-dimensional y-weight and the score vector of the last iteration are
kept. -/
noncomputable def plsInner {n p : ℕ} (X : Fin n → Fin p → ℝ) (yv : Fin n → ℝ) :
    ℕ → (Fin n → ℝ) → Option ((Fin p → ℝ) × ℝ × (Fin n → ℝ))
  | 0, _ => none
  | fuel + 1, u => do
    let r ← plsStep X yv u
    let w := r.1
    let c := r.2.1
    let t := r.2.2.1
    let u2 := r.2.2.2
    let diff := Real.sqrt (∑ i, (u2 i - u i) * (u2 i - u i))
    if diff < 1 / 10 ^ 6 ∨ fuel = 0 then pure (w, c, t)
    else plsInner X yv fuel u2

/-- The per-component data `(w, c, p, q, t)` stored by `PLS.Fit`. -/
structure PLSComponent (n p : ℕ) where
  w : Fin p → ℝ
  c : ℝ
  pLoad : Fin p → ℝ
  qLoad : ℝ
  t : Fin n → ℝ

/-- One outer component of `PLS.Fit`: `u` initialized from the current
target residual, the inner loop (cap 100), loadings
`p = Xᵗt/(tᵗt)` and `q = Yᵗt/(tᵗt)` (both guarded), then deflation of
`X` and `Y` by the guarded-scaled projector `ttᵗ/(tᵗt)`. -/
noncomputable def plsComponent {n p : ℕ} (X : Fin n → Fin p → ℝ)
    (yv : Fin n → ℝ) :
    Option (PLSComponent n p × (Fin n → Fin p → ℝ) × (Fin n → ℝ)) := do
  let r ← plsInner X yv 100 yv
  let w := r.1
  let c := r.2.1
  let t := r.2.2
  let tno := dotR t t
  let pv ← guardScale tno (mulVecT X t)
  let qv ← guardScale tno (dotR yv t)
  let ttM ← guardScale (dotR t t) (fun i k : Fin n => t i * t k)
  let X2 : Fin n → Fin p → ℝ := fun i j => X i j - ∑ k, ttM i k * X k j
  let y2 : Fin n → ℝ := fun i => yv i - ∑ k, ttM i k * yv k
  pure ({ w := w, c := c, pLoad := pv, qLoad := qv, t := t }, X2, y2)

/-- The outer component loop of `PLS.Fit`, accumulating the stored
components while deflating the working copies of `X` and `Y`. -/
noncomputable def plsFitAux {n p : ℕ} :
    ℕ → (Fin n → Fin p → ℝ) → (Fin n → ℝ) → List (PLSComponent n p) →
      Option (List (PLSComponent n p))
  | 0, _, _, acc => some acc
  | k + 1, X, yv, acc => do
    let r ← plsComponent X yv
    plsFitAux k r.2.1 r.2.2 (acc ++ [r.1])

/-- `PLS.Fit` with `NumComponents = K` on dimensionally consistent
input (the Go signature ties the row counts of `X` and `y` through
`mat.Dense`/`mat.VecDense` values of matching sizes; mismatched sizes
panic inside gonum before any division and are not part of this
claim). -/
noncomputable def plsFit {n p : ℕ} (K : ℕ) (X : Fin n → Fin p → ℝ)
    (yv : Fin n → ℝ) : Option (List (PLSComponent n p)) :=
  plsFitAux K X yv []

/-! ### Predict and parameter round-trip for the remaining model structs

gonum `*mat.Dense` values always have at least one row and one column,
so the `n = 0` corner of these embeddings is outside any realizable Go
call; the embeddings model the loop semantics of each `Predict`
method. -/

/-- The gonum-based `OLS` struct (`internal/models/linear/ols.go`):
`Coefficients` is a nil `*mat.VecDense` before training. -/
structure OLSGonum where
  intercept : ℚ
  coefficients : Option (List ℚ)
  isTrained : Bool

/-- `NewOLS()` of the gonum-based OLS. -/
def newOLSGonum : OLSGonum :=
  { intercept := 0, coefficients := none, isTrained := false }

/-- The gonum `OLS.Predict`: no trained-state check, no error channel;
`intercept + Σ_j X(i,j)·coef(j)` per row, with the same nil-pointer and
out-of-range panic behavior as `Ridge.Predict`. -/
def olsGonumPredictD (o : OLSGonum) (n p : ℕ) (X : Fin n → Fin p → ℚ) :
    PredictResult :=
  match o.coefficients with
  | none =>
    if p = 0 then .ok (List.ofFn fun _ : Fin n => o.intercept)
    else .panic .nilPointer
  | some c =>
    if p ≤ c.length then
      .ok (List.ofFn fun i : Fin n => o.intercept + ∑ j : Fin p, X i j * c.getD j 0)
    else .panic .outOfRange

/-- The map content of the gonum `OLS.GetParameters`: key `intercept`
always, key `coefficients` only when the vector is non-nil. -/
structure OLSGonumParams where
  intercept : ℚ
  coefficients : Option (List ℚ)

/-- The gonum `OLS.GetParameters`. -/
def olsGonumGetParameters (o : OLSGonum) : OLSGonumParams :=
  { intercept := o.intercept, coefficients := o.coefficients }

/-- Modelled from the spec: the matching `SetParameters` for the gonum
OLS (declared only in the `ModelSerializer` interface, implemented
nowhere in the repository); each supplied parameter is written back, an
absent key leaves the field untouched. -/
def olsGonumSetParameters (params : OLSGonumParams) (o : OLSGonum) : OLSGonum :=
  { intercept := params.intercept
    coefficients := match params.coefficients with
      | none => o.coefficients
      | some c => some c
    isTrained := o.isTrained }

/-- The `Lasso` struct (`internal/models/linear/lasso.go`, embedded in
`internal/models/README.md`): hyperparameters plus the lazily populated
parameters (`Coefficients` is nil before training). -/
structure LassoModel where
  lambda : ℚ
  maxIter : ℕ
  tol : ℚ
  intercept : ℚ
  coefficients : Option (List ℚ)
  isTrained : Bool

/-- `NewLasso(lambda)` as a full struct value. -/
def newLassoModel (lam : ℚ) : LassoModel :=
  { lambda := lam, maxIter := 1000, tol := 1 / 10 ^ 4, intercept := 0,
    coefficients := none, isTrained := false }

/-- `Lasso.Predict`: the same unchecked loop as `Ridge.Predict`. -/
def lassoPredictD (l : LassoModel) (n p : ℕ) (X : Fin n → Fin p → ℚ) :
    PredictResult :=
  match l.coefficients with
  | none =>
    if p = 0 then .ok (List.ofFn fun _ : Fin n => l.intercept)
    else .panic .nilPointer
  | some c =>
    if p ≤ c.length then
      .ok (List.ofFn fun i : Fin n => l.intercept + ∑ j : Fin p, X i j * c.getD j 0)
    else .panic .outOfRange

/-- The map content of `Lasso.GetParameters`: keys `lambda` and
`intercept` always, `coefficients` only when non-nil. -/
structure LassoParams where
  lambda : ℚ
  intercept : ℚ
  coefficients : Option (List ℚ)

/-- `Lasso.GetParameters`. -/
def lassoGetParameters (l : LassoModel) : LassoParams :=
  { lambda := l.lambda, intercept := l.intercept, coefficients := l.coefficients }

/-- Modelled from the spec: the matching `SetParameters` for Lasso. -/
def lassoSetParameters (params : LassoParams) (l : LassoModel) : LassoModel :=
  { lambda := params.lambda
    maxIter := l.maxIter
    tol := l.tol
    intercept := params.intercept
    coefficients := match params.coefficients with
      | none => l.coefficients
      | some c => some c
    isTrained := l.isTrained }

/-- Outcome of a predict call of a real-valued model (Logistic, PLS and
the nonlinear adapters): a value, a Go `error`, or a runtime panic.
The gonum-based `Predict` methods return a bare `*mat.VecDense`, so for
them only `ok` and `panic` are inhabited. -/
inductive RealPredictResult where
  | ok (ys : List ℝ)
  | err (e : PredictError)
  | panic (p : PanicKind)

/-- The `Logistic` struct (`internal/models/linear/logistic.go`):
hyperparameters plus the lazily populated parameters. -/
structure LogisticModel where
  intercept : ℝ
  coefficients : Option (List ℝ)
  maxIter : ℕ
  tol : ℝ
  learningRate : ℝ
  isTrained : Bool

/-- `NewLogistic()`. -/
noncomputable def newLogisticModel : LogisticModel :=
  { intercept := 0, coefficients := none, maxIter := 1000, tol := 1 / 10 ^ 4,
    learningRate := 1 / 100, isTrained := false }

/-- `Logistic.Predict` as the method on the struct: no trained-state
check, no error channel; `sigmoid(intercept + Σ_j X(i,j)·coef(j))` per
row, with the nil-pointer panic on an untrained model as soon as the
coefficient loop runs. -/
noncomputable def logisticPredictD (l : LogisticModel) (n p : ℕ)
    (X : Fin n → Fin p → ℝ) : RealPredictResult :=
  match l.coefficients with
  | none =>
    if p = 0 then .ok (List.ofFn fun _ : Fin n => sigmoid l.intercept)
    else .panic .nilPointer
  | some c =>
    if p ≤ c.length then
      .ok (List.ofFn fun i : Fin n =>
        sigmoid (l.intercept + ∑ j : Fin p, X i j * c.getD j 0))
    else .panic .outOfRange

/-- The map content of `Logistic.GetParameters`: keys `intercept`,
`max_iter`, `tol`, `learning_rate` always, `coefficients` only when
non-nil. -/
structure LogisticParams where
  intercept : ℝ
  maxIter : ℕ
  tol : ℝ
  learningRate : ℝ
  coefficients : Option (List ℝ)

/-- `Logistic.GetParameters`. -/
noncomputable def logisticGetParameters (l : LogisticModel) : LogisticParams :=
  { intercept := l.intercept, maxIter := l.maxIter, tol := l.tol,
    learningRate := l.learningRate, coefficients := l.coefficients }

/-- Modelled from the spec: the matching `SetParameters` for
Logistic. -/
noncomputable def logisticSetParameters (params : LogisticParams)
    (l : LogisticModel) : LogisticModel :=
  { intercept := params.intercept
    coefficients := match params.coefficients with
      | none => l.coefficients
      | some c => some c
    maxIter := params.maxIter
    tol := params.tol
    learningRate := params.learningRate
    isTrained := l.isTrained }

/-- The `PLS` struct as `Predict` and `GetParameters` read it
(`internal/models/linear/pls.go`): the weight matrix `XWeights`
(`pw × K`), the loading row `YLoadings` (`1 × K`), the component count;
both matrices are nil `*mat.Dense` values before training. -/
structure PLSModel (pw K : ℕ) where
  xWeights : Option (Fin pw → Fin K → ℝ)
  yLoadings : Option (Fin K → ℝ)
  numComponents : ℕ
  isTrained : Bool

/-- `NewPLS(numComponents)`. -/
def newPLSModel (pw K numComponents : ℕ) : PLSModel pw K :=
  { xWeights := none, yLoadings := none, numComponents := numComponents,
    isTrained := false }

/-- `PLS.Predict`: no trained-state check, no error channel.
`NewDense(n, NumComponents)` panics on a zero component count; then
`xScores = X·XWeights` dereferences a nil weight matrix on an untrained
model, and `yHat = xScores·YLoadingsᵀ` a nil loading matrix; otherwise
`yHat(i) = Σ_k (Σ_j X(i,j)·W(j,k))·Q(0,k)`. -/
noncomputable def plsPredictD {pw K : ℕ} (m : PLSModel pw K) (n : ℕ)
    (X : Fin n → Fin pw → ℝ) : RealPredictResult :=
  if m.numComponents = 0 then .panic .zeroLength
  else
    match m.xWeights with
    | none => .panic .nilPointer
    | some W =>
      match m.yLoadings with
      | none => .panic .nilPointer
      | some Q =>
        .ok (List.ofFn fun i : Fin n => ∑ k, (∑ j, X i j * W j k) * Q k)

/-- The map content of `PLS.GetParameters`: key `num_components`
always, keys `x_weights` and `y_loadings` only when the matrices are
non-nil (serialized via `denseToSlice2D`). -/
structure PLSParams (pw K : ℕ) where
  numComponents : ℕ
  xWeights : Option (Fin pw → Fin K → ℝ)
  yLoadings : Option (Fin K → ℝ)

/-- `PLS.GetParameters`. -/
def plsGetParameters {pw K : ℕ} (m : PLSModel pw K) : PLSParams pw K :=
  { numComponents := m.numComponents, xWeights := m.xWeights,
    yLoadings := m.yLoadings }

/-- Modelled from the spec: the matching `SetParameters` for PLS. -/
def plsSetParameters {pw K : ℕ} (params : PLSParams pw K)
    (m : PLSModel pw K) : PLSModel pw K :=
  { numComponents := params.numComponents
    xWeights := match params.xWeights with
      | none => m.xWeights
      | some W => some W
    yLoadings := match params.yLoadings with
      | none => m.yLoadings
      | some Q => some Q
    isTrained := m.isTrained }

/-- The `Polynomial` struct
(`internal/models/nonlinear/polynomial.go`): the coefficient vector is
a nil `*mat.VecDense` before training. -/
structure Polynomial where
  coefficients : Option (List ℝ)
  degree : ℕ
  isTrained : Bool

/-- `NewPolynomial(degree)`. -/
def newPolynomial (degree : ℕ) : Polynomial :=
  { coefficients := none, degree := degree, isTrained := false }

/-- `Polynomial.Predict`: panics on non-single-column input; per row
`Σ_{j=0..Degree} coef(j)·x^j`, with the nil-pointer panic on an
untrained model. -/
noncomputable def polynomialPredictD (m : Polynomial) (n p : ℕ)
    (X : Fin n → Fin p → ℝ) : RealPredictResult :=
  if hp : p = 1 then
    match m.coefficients with
    | none => .panic .nilPointer
    | some c =>
      if m.degree + 1 ≤ c.length then
        .ok (List.ofFn fun i : Fin n =>
          ∑ j ∈ Finset.range (m.degree + 1), c.getD j 0 * X i ⟨0, by omega⟩ ^ j)
      else .panic .outOfRange
  else .panic .singleFeature

/-- The map content of `Polynomial.GetParameters`: key `degree` always,
`coefficients` only when non-nil. -/
structure PolynomialParams where
  degree : ℕ
  coefficients : Option (List ℝ)

/-- `Polynomial.GetParameters`. -/
def polynomialGetParameters (m : Polynomial) : PolynomialParams :=
  { degree := m.degree, coefficients := m.coefficients }

/-- Modelled from the spec: the matching `SetParameters` for
Polynomial. -/
def polynomialSetParameters (params : PolynomialParams) (m : Polynomial) :
    Polynomial :=
  { degree := params.degree
    coefficients := match params.coefficients with
      | none => m.coefficients
      | some c => some c
    isTrained := m.isTrained }

/-- The `Exponential` struct (`internal/models/nonlinear/exponential.go`):
the fitted scalars `A` and `B`. -/
structure Exponential where
  a : ℝ
  b : ℝ
  isTrained : Bool

/-- `NewExponential()` (zero-valued scalars). -/
def newExponential : Exponential := { a := 0, b := 0, isTrained := false }

/-- `Exponential.Predict`: panics on non-single-column input; per row
`a·exp(b·x)`.  No trained-state check. -/
noncomputable def exponentialPredictD (m : Exponential) (n p : ℕ)
    (X : Fin n → Fin p → ℝ) : RealPredictResult :=
  if hp : p = 1 then
    .ok (List.ofFn fun i : Fin n => m.a * Real.exp (m.b * X i ⟨0, by omega⟩))
  else .panic .singleFeature

/-- The `Logarithmic` struct (`internal/models/nonlinear/logarithmic.go`). -/
structure Logarithmic where
  a : ℝ
  b : ℝ
  isTrained : Bool

/-- `NewLogarithmic()`. -/
def newLogarithmic : Logarithmic := { a := 0, b := 0, isTrained := false }

section
open Classical

/-- `Logarithmic.Predict`: panics on non-single-column input and on any
non-positive x value; per row `a·ln(x) + b`.  No trained-state
check. -/
noncomputable def logarithmicPredictD (m : Logarithmic) (n p : ℕ)
    (X : Fin n → Fin p → ℝ) : RealPredictResult :=
  if hp : p = 1 then
    if ∀ i : Fin n, 0 < X i ⟨0, by omega⟩ then
      .ok (List.ofFn fun i : Fin n => m.a * Real.log (X i ⟨0, by omega⟩) + m.b)
    else .panic .nonPositiveValue
  else .panic .singleFeature

/-- The `Power` struct (`internal/models/nonlinear/power.go`). -/
structure Power where
  a : ℝ
  b : ℝ
  isTrained : Bool

/-- `NewPower()`. -/
def newPower : Power := { a := 0, b := 0, isTrained := false }

/-- `Power.Predict`: panics on non-single-column input and on any
non-positive x value; per row `a·x^b` (`math.Pow`).  No trained-state
check. -/
noncomputable def powerPredictD (m : Power) (n p : ℕ)
    (X : Fin n → Fin p → ℝ) : RealPredictResult :=
  if hp : p = 1 then
    if ∀ i : Fin n, 0 < X i ⟨0, by omega⟩ then
      .ok (List.ofFn fun i : Fin n => m.a * X i ⟨0, by omega⟩ ^ m.b)
    else .panic .nonPositiveValue
  else .panic .singleFeature

end

/-- The map content of `GetParameters` shared by `Exponential`,
`Logarithmic` and `Power`: keys `a` and `b`, always present. -/
structure ABParams where
  a : ℝ
  b : ℝ

/-- `Exponential.GetParameters`. -/
def exponentialGetParameters (m : Exponential) : ABParams :=
  { a := m.a, b := m.b }

/-- `Logarithmic.GetParameters`. -/
def logarithmicGetParameters (m : Logarithmic) : ABParams :=
  { a := m.a, b := m.b }

/-- `Power.GetParameters`. -/
def powerGetParameters (m : Power) : ABParams :=
  { a := m.a, b := m.b }

/-- Modelled from the spec: the matching `SetParameters` for
Exponential. -/
def exponentialSetParameters (params : ABParams) (m : Exponential) :
    Exponential :=
  { a := params.a, b := params.b, isTrained := m.isTrained }

/-- Modelled from the spec: the matching `SetParameters` for
Logarithmic. -/
def logarithmicSetParameters (params : ABParams) (m : Logarithmic) :
    Logarithmic :=
  { a := params.a, b := params.b, isTrained := m.isTrained }

/-- Modelled from the spec: the matching `SetParameters` for Power. -/
def powerSetParameters (params : ABParams) (m : Power) : Power :=
  { a := params.a, b := params.b, isTrained := m.isTrained }

/-! ## Lemmas and claim theorems -/

theorem swapToFront_length (l : List (List ℚ)) (j : ℕ) :
    (swapToFront l j).length = l.length := by
  cases l with
  | nil => cases j <;> rfl
  | cons r rs =>
    cases j with
    | zero => rfl
    | succ k => simp [swapToFront]

theorem cons_set_perm : ∀ (t : List (List ℚ)) (j : ℕ) (r : List ℚ), j < t.length →
    (t.getD j [] :: t.set j r).Perm (r :: t) := by
  intro t
  induction t with
  | nil => intro j r h; simp at h
  | cons a t2 ih =>
    intro j r h
    cases j with
    | zero => exact List.Perm.swap r a t2
    | succ k =>
      have hk : k < t2.length := by simpa using h
      show (t2.getD k [] :: a :: t2.set k r).Perm (r :: a :: t2)
      exact (List.Perm.swap a _ _).trans (((ih k r hk).cons a).trans
        (List.Perm.swap r a t2))

theorem swapToFront_perm (l : List (List ℚ)) (j : ℕ) (h : j < l.length) :
    (swapToFront l j).Perm l := by
  cases l with
  | nil => simp at h
  | cons r rs =>
    cases j with
    | zero => exact List.Perm.refl _
    | succ k =>
      have hk : k < rs.length := by simpa using h
      exact cons_set_perm rs k r hk

theorem pivotIdxAux_spec : ∀ (rs : List (List ℚ)) (m : ℚ) (best cur : ℕ),
    (pivotIdxAux rs m best cur = best
        ∧ ∀ i < rs.length, |(rs.getD i []).headD 0| ≤ m)
  ∨ (∃ i, i < rs.length ∧ pivotIdxAux rs m best cur = cur + i
      ∧ m < |(rs.getD i []).headD 0|
      ∧ (∀ k < rs.length, |(rs.getD k []).headD 0| ≤ |(rs.getD i []).headD 0|)
      ∧ (∀ k < i, |(rs.getD k []).headD 0| < |(rs.getD i []).headD 0|)) := by
  intro rs
  induction rs with
  | nil =>
    intro m best cur
    left
    exact ⟨rfl, fun i h => by simp at h⟩
  | cons r t ih =>
    intro m best cur
    by_cases h : |r.headD 0| > m
    · rcases ih |r.headD 0| cur (cur + 1) with ⟨heq, hle⟩ | ⟨i, hi, heq, hgt, hmax, hfirst⟩
      · right
        refine ⟨0, Nat.succ_pos _, ?_, h, ?_, ?_⟩
        · simp only [pivotIdxAux, if_pos h]
          rw [heq, Nat.add_zero]
        · intro k hk
          cases k with
          | zero => exact le_refl _
          | succ k2 =>
            simp only [List.getD_cons_succ, List.getD_cons_zero]
            exact hle k2 (by simpa using hk)
        · intro k hk
          omega
      · right
        refine ⟨i + 1, by simpa using hi, ?_, lt_trans h hgt, ?_, ?_⟩
        · simp only [pivotIdxAux, if_pos h]
          rw [heq]
          omega
        · intro k hk
          cases k with
          | zero =>
            simp only [List.getD_cons_zero, List.getD_cons_succ]
            exact le_of_lt hgt
          | succ k2 =>
            simp only [List.getD_cons_succ]
            exact hmax k2 (by simpa using hk)
        · intro k hk
          cases k with
          | zero =>
            simp only [List.getD_cons_zero, List.getD_cons_succ]
            exact hgt
          | succ k2 =>
            simp only [List.getD_cons_succ]
            exact hfirst k2 (by omega)
    · rcases ih m best (cur + 1) with ⟨heq, hle⟩ | ⟨i, hi, heq, hgt, hmax, hfirst⟩
      · left
        constructor
        · simp only [pivotIdxAux, if_neg h]
          exact heq
        · intro k hk
          cases k with
          | zero => exact le_of_not_lt h
          | succ k2 =>
            simp only [List.getD_cons_succ]
            exact hle k2 (by simpa using hk)
      · right
        refine ⟨i + 1, by simpa using hi, ?_, ?_, ?_, ?_⟩
        · simp only [pivotIdxAux, if_neg h]
          rw [heq]
          omega
        · simpa only [List.getD_cons_succ] using hgt
        · intro k hk
          cases k with
          | zero =>
            simp only [List.getD_cons_zero, List.getD_cons_succ]
            exact le_trans (le_of_not_lt h) (le_of_lt hgt)
          | succ k2 =>
            simp only [List.getD_cons_succ]
            exact hmax k2 (by simpa using hk)
        · intro k hk
          cases k with
          | zero =>
            simp only [List.getD_cons_zero, List.getD_cons_succ]
            exact lt_of_le_of_lt (le_of_not_lt h) hgt
          | succ k2 =>
            simp only [List.getD_cons_succ]
            exact hfirst k2 (by omega)

theorem pivotIdx_spec (l : List (List ℚ)) (hne : l ≠ []) :
    pivotIdx l < l.length
  ∧ (∀ k < l.length, |(l.getD k []).headD 0| ≤ |(l.getD (pivotIdx l) []).headD 0|)
  ∧ (∀ k < pivotIdx l,
      |(l.getD k []).headD 0| < |(l.getD (pivotIdx l) []).headD 0|) := by
  cases l with
  | nil => exact absurd rfl hne
  | cons r t =>
    rcases pivotIdxAux_spec t |r.headD 0| 0 1 with ⟨heq, hle⟩ | ⟨i, hi, heq, hgt, hmax, hfirst⟩
    · have hpi : pivotIdx (r :: t) = 0 := by
        simp only [pivotIdx]
        exact heq
      rw [hpi]
      refine ⟨Nat.succ_pos _, ?_, ?_⟩
      · intro k hk
        cases k with
        | zero => exact le_refl _
        | succ k2 =>
          simp only [List.getD_cons_succ, List.getD_cons_zero]
          exact hle k2 (by simpa using hk)
      · intro k hk
        omega
    · have hpi : pivotIdx (r :: t) = i + 1 := by
        simp only [pivotIdx]
        rw [heq]
        omega
      rw [hpi]
      refine ⟨by simpa using hi, ?_, ?_⟩
      · intro k hk
        cases k with
        | zero =>
          simp only [List.getD_cons_zero, List.getD_cons_succ]
          exact le_of_lt hgt
        | succ k2 =>
          simp only [List.getD_cons_succ]
          exact hmax k2 (by simpa using hk)
      · intro k hk
        cases k with
        | zero =>
          simp only [List.getD_cons_zero, List.getD_cons_succ]
          exact hgt
        | succ k2 =>
          simp only [List.getD_cons_succ]
          exact hfirst k2 (by omega)

theorem dotL_nil_right (xs : List ℚ) : dotL xs [] = 0 := by
  cases xs <;> rfl

theorem dotL_cons (a x : ℚ) (l xs : List ℚ) :
    dotL (a :: l) (x :: xs) = a * x + dotL l xs := rfl

theorem dotL_zipWith_sub (f : ℚ) : ∀ (u v w : List ℚ), u.length = v.length →
    dotL (List.zipWith (fun a b => a - f * b) u v) w
      = dotL u w - f * dotL v w := by
  intro u
  induction u with
  | nil =>
    intro v w h
    cases v with
    | nil => simp [dotL]
    | cons b v2 => simp at h
  | cons a u2 ih =>
    intro v w h
    cases v with
    | nil => simp at h
    | cons b v2 =>
      cases w with
      | nil =>
        simp only [dotL_nil_right]
        ring
      | cons x w2 =>
        simp only [List.zipWith_cons_cons, dotL_cons]
        rw [ih v2 w2 (by simpa using h)]
        ring

theorem zipWith_tail_eq (f : ℚ → ℚ → ℚ) (u v : List ℚ) :
    (List.zipWith f u v).tail = List.zipWith f u.tail v.tail := by
  cases u <;> cases v <;> simp

theorem zipWith_dropLast (f : ℚ → ℚ → ℚ) : ∀ (u v : List ℚ), u.length = v.length →
    (List.zipWith f u v).dropLast
      = List.zipWith f u.dropLast v.dropLast := by
  intro u
  induction u with
  | nil => intro v h; rfl
  | cons a u2 ih =>
    intro v h
    cases v with
    | nil => simp at h
    | cons b v2 =>
      cases u2 with
      | nil =>
        cases v2 with
        | nil => rfl
        | cons c v3 => simp at h
      | cons c u3 =>
        cases v2 with
        | nil => simp at h
        | cons e v3 =>
          have h2 : (c :: u3).length = (e :: v3).length := by simpa using h
          have key := ih (e :: v3) h2
          calc (List.zipWith f (a :: c :: u3) (b :: e :: v3)).dropLast
              = (f a b :: List.zipWith f (c :: u3) (e :: v3)).dropLast := rfl
            _ = f a b :: (List.zipWith f (c :: u3) (e :: v3)).dropLast :=
                List.dropLast_cons_of_ne_nil (by simp)
            _ = f a b :: List.zipWith f (c :: u3).dropLast (e :: v3).dropLast := by
                rw [key]
            _ = List.zipWith f (a :: (c :: u3).dropLast)
                  (b :: (e :: v3).dropLast) := rfl
            _ = List.zipWith f (a :: c :: u3).dropLast (b :: e :: v3).dropLast := by
                rw [List.dropLast_cons_of_ne_nil (by simp : (c :: u3) ≠ []),
                  List.dropLast_cons_of_ne_nil (by simp : (e :: v3) ≠ [])]

theorem getLastD_cons_irrel (a : ℚ) (l : List ℚ) (d1 d2 : ℚ) :
    (a :: l).getLastD d1 = (a :: l).getLastD d2 := by
  cases l with
  | nil => rfl
  | cons b t => simp only [List.getLastD_cons]

theorem getLastD_cons_ne_nil (a d : ℚ) (l : List ℚ) (h : l ≠ []) :
    (a :: l).getLastD d = l.getLastD d := by
  cases l with
  | nil => exact absurd rfl h
  | cons b t =>
    rw [List.getLastD_cons]
    exact getLastD_cons_irrel b t a d

theorem zipWith_getLastD (f : ℚ → ℚ → ℚ) : ∀ (u v : List ℚ),
    u.length = v.length → u ≠ [] →
    (List.zipWith f u v).getLastD 0
      = f (u.getLastD 0) (v.getLastD 0) := by
  intro u
  induction u with
  | nil => intro v h hne; exact absurd rfl hne
  | cons a u2 ih =>
    intro v h hne
    cases v with
    | nil => simp at h
    | cons b v2 =>
      cases u2 with
      | nil =>
        cases v2 with
        | nil => rfl
        | cons c v3 => simp at h
      | cons c u3 =>
        cases v2 with
        | nil => simp at h
        | cons e v3 =>
          have hlen2 : (c :: u3).length = (e :: v3).length := by simpa using h
          rw [show List.zipWith f (a :: c :: u3) (b :: e :: v3)
                = f a b :: List.zipWith f (c :: u3) (e :: v3) from rfl,
            getLastD_cons_ne_nil (f a b) 0 _ (by simp),
            getLastD_cons_ne_nil a 0 (c :: u3) (by simp),
            getLastD_cons_ne_nil b 0 (e :: v3) (by simp)]
          exact ih (e :: v3) hlen2 (by simp)

theorem elimStep_length (pivot r : List ℚ) (h : r.length = pivot.length) :
    (elimStep pivot r).length = r.length - 1 := by
  simp [elimStep, List.length_zipWith, h]

theorem except_map_ok {α β : Type} (f : α → β) (e : Except FitError α) (b : β)
    (h : e.map f = .ok b) : ∃ a, e = .ok a ∧ b = f a := by
  cases e with
  | error err => simp [Except.map] at h
  | ok a => exact ⟨a, rfl, by simpa [Except.map] using h.symm⟩

/-- Correctness of the elimination and back-substitution: when the run
returns a solution, that solution satisfies every row of the (square,
well-formed) augmented system exactly. -/
theorem solveGEAux_ok_solves : ∀ (n : ℕ) (rows : List (List ℚ)),
    rows.length = n → (∀ q ∈ rows, q.length = n + 1) →
    ∀ xs, solveGEAux n rows = .ok xs →
      xs.length = n ∧ ∀ q ∈ rows, dotL q.dropLast xs = q.getLastD 0 := by
  intro n
  induction n with
  | zero =>
    intro rows hlen hwf xs hok
    have hnil : rows = [] := List.length_eq_zero.mp hlen
    subst hnil
    have hxs : xs = [] := by
      have : (Except.ok [] : Except FitError (List ℚ)) = .ok xs := hok
      injection this with h
      exact h.symm
    subst hxs
    exact ⟨rfl, fun q hq => absurd hq (List.not_mem_nil q)⟩
  | succ n ih =>
    intro rows hlen hwf xs hok
    cases rows with
    | nil => simp at hlen
    | cons r rs =>
    obtain ⟨pv, tl, heq⟩ : ∃ pv tl,
        swapToFront (r :: rs) (pivotIdx (r :: rs)) = pv :: tl := by
      cases hsw : swapToFront (r :: rs) (pivotIdx (r :: rs)) with
      | nil =>
        have hl := swapToFront_length (r :: rs) (pivotIdx (r :: rs))
        rw [hsw] at hl
        simp at hl
      | cons pv tl => exact ⟨pv, tl, rfl⟩
    have hunfold : solveGEAux (n + 1) (r :: rs)
        = if |pv.headD 0| < geps then .error .singularMatrix
          else (solveGEAux n (tl.map (elimStep pv))).map (backSubStep pv) := by
      show (let rows2 := swapToFront (r :: rs) (pivotIdx (r :: rs))
            let pivot := rows2.headD []
            if |pivot.headD 0| < geps then (.error .singularMatrix : Except FitError (List ℚ))
            else (solveGEAux n (rows2.tail.map (elimStep pivot))).map (backSubStep pivot)) = _
      rw [heq]
      rfl
    rw [hunfold] at hok
    by_cases hpiv : |pv.headD 0| < geps
    · rw [if_pos hpiv] at hok
      cases hok
    rw [if_neg hpiv] at hok
    obtain ⟨ys, hs, hxs⟩ := except_map_ok _ _ _ hok
    have hperm : (pv :: tl).Perm (r :: rs) := by
      have hp := swapToFront_perm (r :: rs) (pivotIdx (r :: rs))
        (pivotIdx_spec (r :: rs) (by simp)).1
      rw [heq] at hp
      exact hp
    have hwf2 : ∀ q ∈ pv :: tl, q.length = n + 2 := fun q hq =>
      hwf q (hperm.mem_iff.mp hq)
    have hpvlen : pv.length = n + 2 := hwf2 pv (List.mem_cons_self _ _)
    have htllen : tl.length = n := by
      have h1 := swapToFront_length (r :: rs) (pivotIdx (r :: rs))
      rw [heq] at h1
      simp only [List.length_cons] at h1 hlen
      omega
    have hsubwf : ∀ q ∈ tl.map (elimStep pv), q.length = n + 1 := by
      intro q hq
      obtain ⟨q0, hq0, rfl⟩ := List.mem_map.mp hq
      have hq0len : q0.length = n + 2 := hwf2 q0 (List.mem_cons_of_mem _ hq0)
      rw [elimStep_length pv q0 (by rw [hq0len, hpvlen]), hq0len]
      omega
    have hsublen : (tl.map (elimStep pv)).length = n := by simp [htllen]
    obtain ⟨hyslen, hsolves⟩ := ih (tl.map (elimStep pv)) hsublen hsubwf ys hs
    have hp0 : pv.headD 0 ≠ 0 := by
      intro h0
      apply hpiv
      rw [h0, abs_zero, geps]
      norm_num
    obtain ⟨p0, p1, rfl⟩ : ∃ p0 p1, pv = p0 :: p1 := by
      cases pv with
      | nil => simp at hpvlen
      | cons p0 p1 => exact ⟨p0, p1, rfl⟩
    have hp1len : p1.length = n + 1 := by simpa using hpvlen
    have hp1ne : p1 ≠ [] := by
      intro h
      rw [h] at hp1len
      simp at hp1len
    have hp0' : p0 ≠ 0 := by simpa using hp0
    have hback : backSubStep (p0 :: p1) ys
        = ((p1.getLastD 0 - dotL p1.dropLast ys) / p0) :: ys := by
      simp only [backSubStep, List.tail_cons, List.headD_cons,
        getLastD_cons_ne_nil p0 0 p1 hp1ne]
    have hpivsolve : dotL (p0 :: p1).dropLast (backSubStep (p0 :: p1) ys)
        = (p0 :: p1).getLastD 0 := by
      rw [hback, List.dropLast_cons_of_ne_nil hp1ne, dotL_cons,
        getLastD_cons_ne_nil p0 0 p1 hp1ne, mul_comm, div_mul_cancel₀ _ hp0']
      ring
    have hothers : ∀ q ∈ tl,
        dotL q.dropLast (backSubStep (p0 :: p1) ys) = q.getLastD 0 := by
      intro q hq
      have hqlen : q.length = n + 2 := hwf2 q (List.mem_cons_of_mem _ hq)
      obtain ⟨q0, q1, rfl⟩ : ∃ q0 q1, q = q0 :: q1 := by
        cases q with
        | nil => simp at hqlen
        | cons q0 q1 => exact ⟨q0, q1, rfl⟩
      have hq1len : q1.length = n + 1 := by simpa using hqlen
      have hq1ne : q1 ≠ [] := by
        intro h
        rw [h] at hq1len
        simp at hq1len
      have hlen12 : q1.length = p1.length := by rw [hq1len, hp1len]
      have hsub := hsolves (elimStep (p0 :: p1) (q0 :: q1))
        (List.mem_map_of_mem _ hq)
      have helim : elimStep (p0 :: p1) (q0 :: q1)
          = List.zipWith (fun a b => a - q0 / p0 * b) q1 p1 := rfl
      rw [helim, zipWith_dropLast _ q1 p1 hlen12,
        dotL_zipWith_sub (q0 / p0) q1.dropLast p1.dropLast ys (by simp [hlen12]),
        zipWith_getLastD _ q1 p1 hlen12 hq1ne] at hsub
      rw [hback, List.dropLast_cons_of_ne_nil hq1ne, dotL_cons,
        getLastD_cons_ne_nil q0 0 q1 hq1ne]
      have hfield : q0 * ((p1.getLastD 0 - dotL p1.dropLast ys) / p0)
          = q0 / p0 * p1.getLastD 0 - q0 / p0 * dotL p1.dropLast ys := by
        field_simp
        ring
      rw [hfield]
      linarith [hsub]
    subst hxs
    constructor
    · rw [hback]
      simp [hyslen]
    · intro q hq
      have hq2 : q ∈ (p0 :: p1) :: tl := hperm.mem_iff.mpr hq
      rcases List.mem_cons.mp hq2 with rfl | hq3
      · exact hpivsolve
      · exact hothers q hq3

theorem except_map_error {α β : Type} (f : α → β) (e : Except FitError α)
    (err : FitError) : (e.map f = .error err) ↔ e = .error err := by
  cases e <;> simp [Except.map]

theorem swap_decomp (r : List ℚ) (rs : List (List ℚ)) :
    ∃ pv tl, swapToFront (r :: rs) (pivotIdx (r :: rs)) = pv :: tl := by
  cases hsw : swapToFront (r :: rs) (pivotIdx (r :: rs)) with
  | nil =>
    have hl := swapToFront_length (r :: rs) (pivotIdx (r :: rs))
    rw [hsw] at hl
    simp at hl
  | cons pv tl => exact ⟨pv, tl, rfl⟩

theorem solveGEAux_succ_cons (n : ℕ) (r : List ℚ) (rs : List (List ℚ))
    (pv : List ℚ) (tl : List (List ℚ))
    (heq : swapToFront (r :: rs) (pivotIdx (r :: rs)) = pv :: tl) :
    solveGEAux (n + 1) (r :: rs)
      = if |pv.headD 0| < geps then .error .singularMatrix
        else (solveGEAux n (tl.map (elimStep pv))).map (backSubStep pv) := by
  show (let rows2 := swapToFront (r :: rs) (pivotIdx (r :: rs))
        let pivot := rows2.headD []
        if |pivot.headD 0| < geps then (.error .singularMatrix : Except FitError (List ℚ))
        else (solveGEAux n (rows2.tail.map (elimStep pivot))).map (backSubStep pivot)) = _
  rw [heq]
  rfl

theorem geStep_cons (r : List ℚ) (rs : List (List ℚ)) (pv : List ℚ)
    (tl : List (List ℚ))
    (heq : swapToFront (r :: rs) (pivotIdx (r :: rs)) = pv :: tl) :
    geStep (r :: rs) = tl.map (elimStep pv) := by
  show (let rows2 := swapToFront (r :: rs) (pivotIdx (r :: rs))
        let pivot := rows2.headD []
        rows2.tail.map (elimStep pivot)) = _
  rw [heq]
  rfl

theorem stagePivot_cons (r : List ℚ) (rs : List (List ℚ)) (pv : List ℚ)
    (tl : List (List ℚ))
    (heq : swapToFront (r :: rs) (pivotIdx (r :: rs)) = pv :: tl) :
    stagePivot (r :: rs) = pv.headD 0 := by
  unfold stagePivot
  rw [heq]
  rfl

/-- The elimination fails with the singular-matrix error exactly when
some stage selects a pivot whose absolute value is below the `1e-10`
threshold. -/
theorem solveGEAux_error_iff : ∀ (n : ℕ) (rows : List (List ℚ)),
    rows.length = n →
    (solveGEAux n rows = .error .singularMatrix ↔
      ∃ k, k < n ∧ |stagePivot (geStep^[k] rows)| < geps) := by
  intro n
  induction n with
  | zero =>
    intro rows hlen
    have hnil : rows = [] := List.length_eq_zero.mp hlen
    subst hnil
    constructor
    · intro h
      cases h
    · rintro ⟨k, hk, _⟩
      omega
  | succ n ih =>
    intro rows hlen
    cases rows with
    | nil => simp at hlen
    | cons r rs =>
    obtain ⟨pv, tl, heq⟩ := swap_decomp r rs
    have hstage : stagePivot (r :: rs) = pv.headD 0 := stagePivot_cons r rs pv tl heq
    have hge : geStep (r :: rs) = tl.map (elimStep pv) := geStep_cons r rs pv tl heq
    rw [solveGEAux_succ_cons n r rs pv tl heq]
    by_cases hpiv : |pv.headD 0| < geps
    · rw [if_pos hpiv]
      constructor
      · intro _
        refine ⟨0, Nat.succ_pos n, ?_⟩
        rw [Function.iterate_zero_apply, hstage]
        exact hpiv
      · intro _
        rfl
    · rw [if_neg hpiv, except_map_error]
      have hsublen : (tl.map (elimStep pv)).length = n := by
        have h1 := swapToFront_length (r :: rs) (pivotIdx (r :: rs))
        rw [heq] at h1
        simp only [List.length_cons] at h1 hlen
        simp only [List.length_map]
        omega
      rw [ih (tl.map (elimStep pv)) hsublen, ← hge]
      constructor
      · rintro ⟨k, hk, hsmall⟩
        refine ⟨k + 1, by omega, ?_⟩
        rwa [Function.iterate_succ_apply]
      · rintro ⟨k, hk, hsmall⟩
        cases k with
        | zero =>
          rw [Function.iterate_zero_apply, hstage] at hsmall
          exact absurd hsmall hpiv
        | succ k2 =>
          rw [Function.iterate_succ_apply] at hsmall
          exact ⟨k2, by omega, hsmall⟩

theorem solveGEAux_error_singular : ∀ (n : ℕ) (rows : List (List ℚ))
    (e : FitError), solveGEAux n rows = .error e → e = .singularMatrix := by
  intro n
  induction n with
  | zero =>
    intro rows e h
    cases rows with
    | nil => cases h
    | cons r rs => cases h
  | succ n ih =>
    intro rows e h
    cases rows with
    | nil => cases h
    | cons r rs =>
      obtain ⟨pv, tl, heq⟩ := swap_decomp r rs
      rw [solveGEAux_succ_cons n r rs pv tl heq] at h
      by_cases hpiv : |pv.headD 0| < geps
      · rw [if_pos hpiv] at h
        injection h with h2
        exact h2.symm
      · rw [if_neg hpiv] at h
        cases hsub : solveGEAux n (tl.map (elimStep pv)) with
        | error e2 =>
          rw [hsub] at h
          simp only [Except.map] at h
          injection h with h2
          exact h2 ▸ ih _ e2 hsub
        | ok ys =>
          rw [hsub] at h
          simp [Except.map] at h

theorem augment_length (A : List (List ℚ)) (b : List ℚ) :
    (augment A b).length = min A.length b.length := by
  simp [augment]

theorem augment_wf (n : ℕ) : ∀ (A : List (List ℚ)) (b : List ℚ),
    (∀ r ∈ A, r.length = n) → ∀ q ∈ augment A b, q.length = n + 1 := by
  intro A
  induction A with
  | nil =>
    intro b h q hq
    simp [augment] at hq
  | cons r A2 ihA =>
    intro b h q hq
    cases b with
    | nil => simp [augment] at hq
    | cons b0 b2 =>
      rcases List.mem_cons.mp hq with rfl | hq2
      · simp [h r (List.mem_cons_self _ _)]
      · exact ihA b2 (fun q2 hq2b => h q2 (List.mem_cons_of_mem _ hq2b)) q hq2

theorem augment_solves_forall₂ : ∀ (A : List (List ℚ)) (b : List ℚ)
    (x : List ℚ), A.length = b.length →
    (∀ q ∈ augment A b, dotL q.dropLast x = q.getLastD 0) →
    List.Forall₂ (fun row bi => dotL row x = bi) A b := by
  intro A
  induction A with
  | nil =>
    intro b x hlen hsol
    cases b with
    | nil => exact List.Forall₂.nil
    | cons b0 b2 => simp at hlen
  | cons r A2 ihA =>
    intro b x hlen hsol
    cases b with
    | nil => simp at hlen
    | cons b0 b2 =>
      constructor
      · have hh := hsol (r ++ [b0]) (List.mem_cons_self _ _)
        rwa [List.dropLast_concat, List.getLastD_concat] at hh
      · exact ihA b2 x (by simpa using hlen)
          (fun q hq => hsol q (List.mem_cons_of_mem _ hq))

/-- C1: `solveLinearSystem` performs Gaussian elimination with partial
pivoting: at each column it selects the first row (among the remaining
rows) with maximal absolute value in that column, swaps it into
position and eliminates below; it returns the singular-matrix error
exactly when at some column the selected pivot's absolute value is
below `1e-10` (and returns no other error); otherwise the
back-substituted result solves `Ax = b` exactly. -/
theorem c1_solveLinearSystem_gaussian_elimination (n : ℕ) (A : List (List ℚ))
    (b : List ℚ) (hA : A.length = n) (hAr : ∀ r ∈ A, r.length = n)
    (hb : b.length = n) :
    (∀ x, solveLinearSystem A b = .ok x →
        x.length = n ∧ List.Forall₂ (fun row bi => dotL row x = bi) A b)
  ∧ (solveLinearSystem A b = .error .singularMatrix ↔
      ∃ k, k < n ∧ |stagePivot (geStep^[k] (augment A b))| < geps)
  ∧ (∀ e, solveLinearSystem A b = .error e → e = .singularMatrix)
  ∧ (∀ rows : List (List ℚ), rows ≠ [] →
      pivotIdx rows < rows.length
      ∧ (∀ k < rows.length,
          |(rows.getD k []).headD 0| ≤ |(rows.getD (pivotIdx rows) []).headD 0|)
      ∧ (∀ k < pivotIdx rows,
          |(rows.getD k []).headD 0| < |(rows.getD (pivotIdx rows) []).headD 0|)) := by
  have haug_len : (augment A b).length = n := by
    rw [augment_length, hA, hb, min_self]
  have haug_wf := augment_wf n A b hAr
  have hsys : solveLinearSystem A b = solveGEAux n (augment A b) := by
    rw [solveLinearSystem, solveGE, haug_len]
  refine ⟨?_, ?_, ?_, fun rows hne => pivotIdx_spec rows hne⟩
  · intro x hx
    rw [hsys] at hx
    obtain ⟨hxlen, hsol⟩ := solveGEAux_ok_solves n (augment A b) haug_len haug_wf x hx
    exact ⟨hxlen, augment_solves_forall₂ A b x (by rw [hA, hb]) hsol⟩
  · rw [hsys]
    exact solveGEAux_error_iff n (augment A b) haug_len
  · rw [hsys]
    exact fun e => solveGEAux_error_singular n (augment A b) e

/-- Witness for C1 at the concrete system `[[1,2],[3,4]]·x = [5,6]`,
whose solver run (pivot `3` chosen over `1` at the first column) is also
evaluated to its exact solution `(-4, 9/2)`. -/
theorem c1_witness :
    ([[1, 2], [3, 4]] : List (List ℚ)).length = 2
  ∧ (∀ r ∈ ([[1, 2], [3, 4]] : List (List ℚ)), r.length = 2)
  ∧ ([5, 6] : List ℚ).length = 2
  ∧ (∀ x, solveLinearSystem [[1, 2], [3, 4]] [5, 6] = .ok x →
      x.length = 2 ∧ List.Forall₂ (fun row bi => dotL row x = bi)
        ([[1, 2], [3, 4]] : List (List ℚ)) [5, 6])
  ∧ solveLinearSystem [[1, 2], [3, 4]] [5, 6] = .ok [-4, 9 / 2] := by
  have h1 : ([[1, 2], [3, 4]] : List (List ℚ)).length = 2 := rfl
  have h2 : ∀ r ∈ ([[1, 2], [3, 4]] : List (List ℚ)), r.length = 2 := by
    intro r hr
    fin_cases hr <;> rfl
  have h3 : ([5, 6] : List ℚ).length = 2 := rfl
  refine ⟨h1, h2, h3,
    (c1_solveLinearSystem_gaussian_elimination 2 [[1, 2], [3, 4]] [5, 6] h1 h2 h3).1,
    ?_⟩
  norm_num [solveLinearSystem, solveGE, solveGEAux, pivotIdx, pivotIdxAux,
    swapToFront, elimStep, backSubStep, dotL, geps, augment, abs, Except.map]

theorem sigmoid_nonneg (z : ℝ) : 0 ≤ sigmoid z := by
  unfold sigmoid
  split
  · norm_num
  split
  · norm_num
  · positivity

theorem sigmoid_le_one (z : ℝ) : sigmoid z ≤ 1 := by
  unfold sigmoid
  split
  · norm_num
  split
  · norm_num
  · have h : 0 < Real.exp (-z) := Real.exp_pos _
    rw [div_le_one (by linarith)]
    linarith

/-- C5: for every trained Logistic model (any intercept and coefficient
vector) and every feature matrix, every entry of `Predict`'s output lies
in `[0, 1]`; the sigmoid is exactly `1` for `z > 30`, exactly `0` for
`z < −30`, and `1/(1+e^(−z))` otherwise.  Over the real-number
embedding every value is finite, which covers the claim's
finite-entries proviso. -/
theorem c5_logistic_predict_unit_interval :
    (∀ z : ℝ, 30 < z → sigmoid z = 1)
  ∧ (∀ z : ℝ, z < -30 → sigmoid z = 0)
  ∧ (∀ z : ℝ, -30 ≤ z → z ≤ 30 → sigmoid z = 1 / (1 + Real.exp (-z)))
  ∧ (∀ (n p : ℕ) (b : ℝ) (w : Fin p → ℝ) (X : Fin n → Fin p → ℝ) (i : Fin n),
      0 ≤ logisticPredict b w X i ∧ logisticPredict b w X i ≤ 1) := by
  refine ⟨fun z hz => ?_, fun z hz => ?_, fun z hz1 hz2 => ?_, fun n p b w X i => ?_⟩
  · simp [sigmoid, hz]
  · have : ¬ z > 30 := by linarith
    simp [sigmoid, this, hz]
  · have h1 : ¬ z > 30 := by linarith
    have h2 : ¬ z < -30 := by linarith
    simp [sigmoid, h1, h2]
  · exact ⟨sigmoid_nonneg _, sigmoid_le_one _⟩

/-- Witness for C5 at the concrete inputs `z = 31`, `z = −31`,
`z = 0`. -/
theorem c5_witness :
    ((30 : ℝ) < 31 ∧ sigmoid 31 = 1)
  ∧ ((-31 : ℝ) < -30 ∧ sigmoid (-31) = 0)
  ∧ ((-30 : ℝ) ≤ 0 ∧ (0 : ℝ) ≤ 30 ∧ sigmoid 0 = 1 / (1 + Real.exp (-0))) :=
  ⟨⟨by norm_num, c5_logistic_predict_unit_interval.1 31 (by norm_num)⟩,
   ⟨by norm_num, c5_logistic_predict_unit_interval.2.1 (-31) (by norm_num)⟩,
   ⟨by norm_num, by norm_num,
    c5_logistic_predict_unit_interval.2.2.1 0 (by norm_num) (by norm_num)⟩⟩

/-- C8: for every model variant implementing `GetParameters` (the
gonum OLS, Ridge, Lasso, Logistic, PLS, Polynomial, Exponential,
Logarithmic and Power), applying the (spec-modelled) `SetParameters` to
the output of `GetParameters`, on a freshly constructed instance,
yields a model whose `Predict` outcomes are identical to the original
model's on every input — including an untrained original, where both
sides reach the same nil-parameter state. -/
theorem c8_parameters_roundtrip :
    (∀ (r : Ridge) (lam0 : ℚ) (n p : ℕ) (X : Fin n → Fin p → ℚ),
      ridgePredictD (ridgeSetParameters (ridgeGetParameters r) (newRidge lam0)) n p X
        = ridgePredictD r n p X)
  ∧ (∀ (o : OLSGonum) (n p : ℕ) (X : Fin n → Fin p → ℚ),
      olsGonumPredictD (olsGonumSetParameters (olsGonumGetParameters o) newOLSGonum) n p X
        = olsGonumPredictD o n p X)
  ∧ (∀ (l : LassoModel) (lam0 : ℚ) (n p : ℕ) (X : Fin n → Fin p → ℚ),
      lassoPredictD (lassoSetParameters (lassoGetParameters l) (newLassoModel lam0)) n p X
        = lassoPredictD l n p X)
  ∧ (∀ (l : LogisticModel) (n p : ℕ) (X : Fin n → Fin p → ℝ),
      logisticPredictD (logisticSetParameters (logisticGetParameters l) newLogisticModel) n p X
        = logisticPredictD l n p X)
  ∧ (∀ (pw K : ℕ) (m : PLSModel pw K) (K0 n : ℕ) (X : Fin n → Fin pw → ℝ),
      plsPredictD (plsSetParameters (plsGetParameters m) (newPLSModel pw K K0)) n X
        = plsPredictD m n X)
  ∧ (∀ (m : Polynomial) (d0 n p : ℕ) (X : Fin n → Fin p → ℝ),
      polynomialPredictD (polynomialSetParameters (polynomialGetParameters m)
          (newPolynomial d0)) n p X
        = polynomialPredictD m n p X)
  ∧ (∀ (m : Exponential) (n p : ℕ) (X : Fin n → Fin p → ℝ),
      exponentialPredictD (exponentialSetParameters (exponentialGetParameters m)
          newExponential) n p X
        = exponentialPredictD m n p X)
  ∧ (∀ (m : Logarithmic) (n p : ℕ) (X : Fin n → Fin p → ℝ),
      logarithmicPredictD (logarithmicSetParameters (logarithmicGetParameters m)
          newLogarithmic) n p X
        = logarithmicPredictD m n p X)
  ∧ (∀ (m : Power) (n p : ℕ) (X : Fin n → Fin p → ℝ),
      powerPredictD (powerSetParameters (powerGetParameters m) newPower) n p X
        = powerPredictD m n p X) := by
  refine ⟨fun r lam0 n p X => ?_, fun o n p X => ?_, fun l lam0 n p X => ?_,
    fun l n p X => ?_, fun pw K m K0 n X => ?_, fun m d0 n p X => ?_,
    fun m n p X => ?_, fun m n p X => ?_, fun m n p X => ?_⟩
  · cases hc : r.coefficients <;>
      simp [ridgePredictD, ridgeSetParameters, ridgeGetParameters, newRidge, hc]
  · cases hc : o.coefficients <;>
      simp [olsGonumPredictD, olsGonumSetParameters, olsGonumGetParameters,
        newOLSGonum, hc]
  · cases hc : l.coefficients <;>
      simp [lassoPredictD, lassoSetParameters, lassoGetParameters,
        newLassoModel, hc]
  · cases hc : l.coefficients <;>
      simp [logisticPredictD, logisticSetParameters, logisticGetParameters,
        newLogisticModel, hc]
  · cases hx : m.xWeights <;> cases hy : m.yLoadings <;>
      simp [plsPredictD, plsSetParameters, plsGetParameters, newPLSModel, hx, hy]
  · cases hc : m.coefficients <;>
      simp [polynomialPredictD, polynomialSetParameters,
        polynomialGetParameters, newPolynomial, hc]
  · simp [exponentialPredictD, exponentialSetParameters,
      exponentialGetParameters, newExponential]
  · simp [logarithmicPredictD, logarithmicSetParameters,
      logarithmicGetParameters, newLogarithmic]
  · simp [powerPredictD, powerSetParameters, powerGetParameters, newPower]

theorem guardScale_isSome {V : Type} [SMul ℝ V] (c : ℝ) (v : V) :
    (guardScale c v).isSome := by
  unfold guardScale safeDiv
  by_cases h : 0 < c
  · rw [if_pos h, if_neg (ne_of_gt h)]
    rfl
  · rw [if_neg h]
    rfl

theorem bind_isSome {α β : Type} {a : Option α} {f : α → Option β}
    (h : a.isSome) (hf : ∀ x, (f x).isSome) : (a.bind f).isSome := by
  cases a with
  | none => simp at h
  | some x => exact hf x

theorem plsStep_isSome {n p : ℕ} (X : Fin n → Fin p → ℝ) (yv : Fin n → ℝ)
    (u : Fin n → ℝ) : (plsStep X yv u).isSome := by
  unfold plsStep
  simp only [bind, Option.bind_eq_bind]
  apply bind_isSome (guardScale_isSome _ _)
  intro w2
  apply bind_isSome (guardScale_isSome _ _)
  intro w
  apply bind_isSome (guardScale_isSome _ _)
  intro c
  apply bind_isSome (guardScale_isSome _ _)
  intro u2
  rfl

theorem plsInner_isSome {n p : ℕ} (X : Fin n → Fin p → ℝ) (yv : Fin n → ℝ) :
    ∀ (fuel : ℕ) (u : Fin n → ℝ), fuel ≠ 0 → (plsInner X yv fuel u).isSome := by
  intro fuel
  induction fuel with
  | zero => intro u h; exact absurd rfl h
  | succ f ih =>
    intro u _
    unfold plsInner
    simp only [bind, Option.bind_eq_bind]
    apply bind_isSome (plsStep_isSome X yv u)
    intro r
    split
    · rfl
    · rename_i hcond
      push_neg at hcond
      exact ih _ hcond.2

theorem plsComponent_isSome {n p : ℕ} (X : Fin n → Fin p → ℝ)
    (yv : Fin n → ℝ) : (plsComponent X yv).isSome := by
  unfold plsComponent
  simp only [bind, Option.bind_eq_bind]
  apply bind_isSome (plsInner_isSome X yv 100 yv (by norm_num))
  intro r
  apply bind_isSome (guardScale_isSome _ _)
  intro pv
  apply bind_isSome (guardScale_isSome _ _)
  intro qv
  apply bind_isSome (guardScale_isSome _ _)
  intro ttM
  rfl

theorem plsFitAux_isSome {n p : ℕ} :
    ∀ (K : ℕ) (X : Fin n → Fin p → ℝ) (yv : Fin n → ℝ)
      (acc : List (PLSComponent n p)), (plsFitAux K X yv acc).isSome := by
  intro K
  induction K with
  | zero => intro X yv acc; rfl
  | succ k ih =>
    intro X yv acc
    unfold plsFitAux
    simp only [bind, Option.bind_eq_bind]
    exact bind_isSome (plsComponent_isSome X yv) (fun r => ih _ _ _)

/-- C9: every scaling in `PLS.Fit` is guarded: a zero norm leaves the
value unscaled (a no-op), a positive norm scales by the (checked,
necessarily nonzero) reciprocal, and the whole fit — in which every
division is checked — succeeds on every dimensionally consistent
input. -/
theorem c9_pls_no_zero_division :
    (∀ (n : ℕ) (v : Fin n → ℝ), guardScale 0 v = some v)
  ∧ (∀ (n : ℕ) (c : ℝ) (v : Fin n → ℝ), 0 < c →
      guardScale c v = some ((1 / c) • v))
  ∧ (∀ (n p K : ℕ) (X : Fin n → Fin p → ℝ) (yv : Fin n → ℝ),
      (plsFit K X yv).isSome) := by
  refine ⟨fun n v => ?_, fun n c v hc => ?_, fun n p K X yv => plsFitAux_isSome K X yv []⟩
  · rw [guardScale, if_neg (lt_irrefl 0)]
  · rw [guardScale, if_pos hc, safeDiv, if_neg (ne_of_gt hc)]
    rfl

/-- Witness for C9: the guarded scaling at the concrete positive norm
`2` of the concrete vector `(1, 3)`. -/
theorem c9_witness :
    (0 : ℝ) < 2 ∧
      guardScale 2 (![1, 3] : Fin 2 → ℝ) = some (((1 : ℝ) / 2) • ![1, 3]) :=
  ⟨by norm_num, c9_pls_no_zero_division.2.1 2 2 ![1, 3] (by norm_num)⟩

theorem xtx_symm {n p : ℕ} (X : Fin n → Fin p → ℚ) (i j : Fin (p + 1)) :
    ((withInterceptCol n p X)ᵀ * withInterceptCol n p X) i j
      = ((withInterceptCol n p X)ᵀ * withInterceptCol n p X) j i := by
  simp only [Matrix.mul_apply, Matrix.transpose_apply]
  exact Finset.sum_congr rfl fun k _ => mul_comm _ _

theorem ridgeSymmetrize_xtx (lam : ℚ) {n p : ℕ} (X : Fin n → Fin p → ℚ) :
    ridgeSymmetrize lam ((withInterceptCol n p X)ᵀ * withInterceptCol n p X)
      = Matrix.of fun i j =>
          ((withInterceptCol n p X)ᵀ * withInterceptCol n p X) i j
            + if i = j ∧ (i : ℕ) ≠ 0 then lam else 0 := by
  ext i j
  simp only [ridgeSymmetrize, Matrix.of_apply]
  congr 1
  rcases le_total i j with h | h
  · rw [min_eq_left h, max_eq_right h]
  · rw [min_eq_right h, max_eq_left h]
    exact xtx_symm X j i

/-- `Ridge.Fit` returns no Go `error` other than the
not-positive-definite one: in particular it returns no shape error on
empty or mismatched input (those cases surface as gonum panics). -/
theorem ridgeFitD_only_error (lam : ℚ) (n p : ℕ) (X : Fin n → Fin p → ℚ)
    (m : ℕ) (y : Fin m → ℚ) :
    ∀ e, ridgeFitD lam n p X m y = .err e → e = .notPositiveDefinite := by
  intro e he
  by_cases hn0 : n = 0
  · simp only [ridgeFitD, if_pos hn0] at he
    cases he
  by_cases h1 : cholFactorizes
      (ridgeSymmetrize lam ((withInterceptCol n p X)ᵀ * withInterceptCol n p X))
  · simp only [ridgeFitD, if_neg hn0, if_pos h1] at he
    split at he <;> simp at he
  by_cases h2 : cholFactorizes
      (ridgeSymmetrize lam ((withInterceptCol n p X)ᵀ * withInterceptCol n p X)
        + ridgeJitter • (1 : Matrix (Fin (p + 1)) (Fin (p + 1)) ℚ))
  · simp only [ridgeFitD, if_neg hn0, if_neg h1, if_pos h2] at he
    split at he <;> simp at he
  · simp only [ridgeFitD, if_neg hn0, if_neg h1, if_neg h2] at he
    injection he with h
    exact h.symm

/-- C4: `Ridge.Fit` adds λ to every diagonal entry of `XᵗX` except the
intercept's, then solves through the Cholesky-style factorization; it
fails with the not-positive-definite error exactly when the
factorization fails both on the first attempt and on the single retry
after adding `1e-10` to every diagonal entry, and that is the only
error `Ridge.Fit` returns. -/
theorem c4_ridge_cholesky_retry (lam : ℚ) (n p : ℕ) (X : Fin n → Fin p → ℚ)
    (m : ℕ) (y : Fin m → ℚ) (hn : 0 < n) :
    (ridgeFitD lam n p X m y = .err .notPositiveDefinite ↔
        ¬cholFactorizes
            (ridgeSymmetrize lam ((withInterceptCol n p X)ᵀ * withInterceptCol n p X))
          ∧ ¬cholFactorizes
            (ridgeSymmetrize lam ((withInterceptCol n p X)ᵀ * withInterceptCol n p X)
              + ridgeJitter • (1 : Matrix (Fin (p + 1)) (Fin (p + 1)) ℚ)))
  ∧ (∀ e, ridgeFitD lam n p X m y = .err e → e = .notPositiveDefinite)
  ∧ ridgeSymmetrize lam ((withInterceptCol n p X)ᵀ * withInterceptCol n p X)
      = Matrix.of fun i j =>
          ((withInterceptCol n p X)ᵀ * withInterceptCol n p X) i j
            + if i = j ∧ (i : ℕ) ≠ 0 then lam else 0 := by
  have hn0 : ¬ n = 0 := hn.ne'
  refine ⟨?_, ?_, ridgeSymmetrize_xtx lam X⟩
  · by_cases h1 : cholFactorizes
        (ridgeSymmetrize lam ((withInterceptCol n p X)ᵀ * withInterceptCol n p X))
    · simp only [ridgeFitD, if_neg hn0, if_pos h1]
      constructor
      · intro h
        split at h <;> simp at h
      · rintro ⟨ha, _⟩
        exact absurd h1 ha
    · by_cases h2 : cholFactorizes
          (ridgeSymmetrize lam ((withInterceptCol n p X)ᵀ * withInterceptCol n p X)
            + ridgeJitter • (1 : Matrix (Fin (p + 1)) (Fin (p + 1)) ℚ))
      · simp only [ridgeFitD, if_neg hn0, if_neg h1, if_pos h2]
        constructor
        · intro h
          split at h <;> simp at h
        · rintro ⟨_, hb⟩
          exact absurd h2 hb
      · simp only [ridgeFitD, if_neg hn0, if_neg h1, if_neg h2]
        exact iff_of_true trivial ⟨h1, h2⟩
  · exact ridgeFitD_only_error lam n p X m y

/-- Witness for C4 at a concrete one-sample instance. -/
theorem c4_witness :
    0 < 1 ∧
      ((ridgeFitD 1 1 0 (fun _ j => Fin.elim0 j) 1 ![1] = .err .notPositiveDefinite ↔
        ¬cholFactorizes
            (ridgeSymmetrize 1
              ((withInterceptCol 1 0 (fun _ j => Fin.elim0 j))ᵀ
                * withInterceptCol 1 0 (fun _ j => Fin.elim0 j)))
          ∧ ¬cholFactorizes
            (ridgeSymmetrize 1
              ((withInterceptCol 1 0 (fun _ j => Fin.elim0 j))ᵀ
                * withInterceptCol 1 0 (fun _ j => Fin.elim0 j))
              + ridgeJitter • (1 : Matrix (Fin 1) (Fin 1) ℚ)))
      ∧ (∀ e, ridgeFitD 1 1 0 (fun _ j => Fin.elim0 j) 1 ![1] = .err e →
          e = .notPositiveDefinite)
      ∧ ridgeSymmetrize 1
            ((withInterceptCol 1 0 (fun _ j => Fin.elim0 j))ᵀ
              * withInterceptCol 1 0 (fun _ j => Fin.elim0 j))
          = Matrix.of fun i j =>
              ((withInterceptCol 1 0 (fun _ j => Fin.elim0 j))ᵀ
                * withInterceptCol 1 0 (fun _ j => Fin.elim0 j)) i j
                + if i = j ∧ (i : ℕ) ≠ 0 then 1 else 0) :=
  ⟨by norm_num, c4_ridge_cholesky_retry 1 1 0 (fun _ j => Fin.elim0 j) 1 ![1] (by norm_num)⟩

theorem softThreshold_eq (lam s rho : ℚ) (hl : 0 ≤ lam) (hs : 0 < s) :
    softThresholdCode lam s rho = softThresholdSpec lam s rho := by
  unfold softThresholdCode softThresholdSpec signQ
  have hth : 0 ≤ lam / s := div_nonneg hl hs.le
  by_cases h1 : rho > lam / s
  · rw [if_pos h1]
    have hrpos : 0 < rho := lt_of_le_of_lt hth h1
    rw [if_pos hrpos, abs_of_pos hrpos, max_eq_left (by linarith)]
    ring
  · rw [if_neg h1]
    by_cases h2 : rho < -(lam / s)
    · rw [if_pos h2]
      have hrneg : rho < 0 := lt_of_lt_of_le h2 (by linarith)
      rw [if_neg (by linarith : ¬ rho > 0), if_pos hrneg, abs_of_neg hrneg,
        max_eq_left (by linarith)]
      ring
    · rw [if_neg h2]
      push_neg at h1 h2
      have habs : |rho| ≤ lam / s := abs_le.mpr ⟨by linarith, h1⟩
      rw [max_eq_right (by linarith)]
      simp

theorem lassoCoordStep_zero_norm {n p : ℕ} (lam : ℚ)
    (XI : Fin n → Fin (p + 1) → ℚ) (y : Fin n → ℚ) (beta : Fin (p + 1) → ℚ)
    (j : Fin (p + 1)) (h : lassoXjNorm XI j = 0) :
    lassoCoordStep lam XI y beta j = beta := by
  simp [lassoCoordStep, h]

theorem lassoIterateCount_le {n p : ℕ} (lam tol : ℚ)
    (XI : Fin n → Fin (p + 1) → ℚ) (y : Fin n → ℚ) :
    ∀ (fuel : ℕ) (beta : Fin (p + 1) → ℚ),
      (lassoIterateCount lam tol XI y fuel beta).2 ≤ fuel := by
  intro fuel
  induction fuel with
  | zero => intro beta; exact le_refl 0
  | succ f ih =>
    intro beta
    by_cases h : lassoMaxDiff beta (lassoPass lam XI y beta) < tol
    · simp only [lassoIterateCount, if_pos h]
      omega
    · simp only [lassoIterateCount, if_neg h]
      have hle := ih (lassoPass lam XI y beta)
      omega

theorem lassoIterateCount_fst {n p : ℕ} (lam tol : ℚ)
    (XI : Fin n → Fin (p + 1) → ℚ) (y : Fin n → ℚ) :
    ∀ (fuel : ℕ) (beta : Fin (p + 1) → ℚ),
      (lassoIterateCount lam tol XI y fuel beta).1
        = lassoIterate lam tol XI y fuel beta := by
  intro fuel
  induction fuel with
  | zero => intro beta; rfl
  | succ f ih =>
    intro beta
    by_cases h : lassoMaxDiff beta (lassoPass lam XI y beta) < tol
    · simp only [lassoIterateCount, lassoIterate, if_pos h]
    · simp only [lassoIterateCount, lassoIterate, if_neg h]
      exact ih _

theorem lassoIterate_succ {n p : ℕ} (lam tol : ℚ)
    (XI : Fin n → Fin (p + 1) → ℚ) (y : Fin n → ℚ) (fuel : ℕ)
    (beta : Fin (p + 1) → ℚ) :
    lassoIterate lam tol XI y (fuel + 1) beta
      = if lassoMaxDiff beta (lassoPass lam XI y beta) < tol
        then lassoPass lam XI y beta
        else lassoIterate lam tol XI y fuel (lassoPass lam XI y beta) := rfl

/-- C2: the Lasso coordinate descent of `Lasso.Fit` runs at most
`MaxIter` outer passes (`NewLasso` defaults: 1000 passes, tolerance
`1e-4`); each pass updates coordinates in ascending order `j = 0..p`
with the intercept at index 0 and `λ_0 = 0`; the coded update branch
equals the spec's soft-threshold formula
`sign(ρ)·max(|ρ|−λ_j/‖X_j‖², 0)/‖X_j‖²` on the scaled column norm; a
zero scaled norm leaves the coordinate unchanged (no error); and the
loop stops early exactly when the maximum absolute coefficient change
of a pass is below the tolerance. -/
theorem c2_lasso_coordinate_descent :
    (∀ lam : ℚ, (newLasso lam).maxIter = 1000 ∧ (newLasso lam).tol = 1 / 10 ^ 4)
  ∧ (∀ lam s rho : ℚ, 0 ≤ lam → 0 < s →
      softThresholdCode lam s rho = softThresholdSpec lam s rho)
  ∧ (∀ (n p : ℕ) (lam : ℚ) (XI : Fin n → Fin (p + 1) → ℚ) (y : Fin n → ℚ)
      (beta : Fin (p + 1) → ℚ) (j : Fin (p + 1)),
      lassoXjNorm XI j = 0 → lassoCoordStep lam XI y beta j = beta)
  ∧ (∀ (n p : ℕ) (lam tol : ℚ) (XI : Fin n → Fin (p + 1) → ℚ) (y : Fin n → ℚ)
      (beta : Fin (p + 1) → ℚ),
      lassoPass lam XI y beta
        = (List.finRange (p + 1)).foldl (fun b j => lassoCoordStep lam XI y b j) beta
      ∧ (∀ fuel, (lassoIterateCount lam tol XI y fuel beta).2 ≤ fuel
          ∧ (lassoIterateCount lam tol XI y fuel beta).1
              = lassoIterate lam tol XI y fuel beta))
  ∧ (∀ (n p : ℕ) (lam tol : ℚ) (XI : Fin n → Fin (p + 1) → ℚ) (y : Fin n → ℚ)
      (beta : Fin (p + 1) → ℚ) (fuel : ℕ),
      (lassoMaxDiff beta (lassoPass lam XI y beta) < tol →
        lassoIterate lam tol XI y (fuel + 1) beta = lassoPass lam XI y beta)
      ∧ (¬ lassoMaxDiff beta (lassoPass lam XI y beta) < tol →
        lassoIterate lam tol XI y (fuel + 1) beta
          = lassoIterate lam tol XI y fuel (lassoPass lam XI y beta))) := by
  refine ⟨fun lam => ⟨rfl, rfl⟩,
    softThreshold_eq,
    fun n p lam XI y beta j h => lassoCoordStep_zero_norm lam XI y beta j h,
    fun n p lam tol XI y beta => ⟨rfl, fun fuel =>
      ⟨lassoIterateCount_le lam tol XI y fuel beta,
       lassoIterateCount_fst lam tol XI y fuel beta⟩⟩,
    fun n p lam tol XI y beta fuel =>
      ⟨fun h => by rw [lassoIterate_succ, if_pos h],
       fun h => by rw [lassoIterate_succ, if_neg h]⟩⟩

/-- Witness for C2: the soft-threshold equivalence at `λ = 1`, `s = 1`,
`ρ = 3`; the zero-norm no-op on an all-zero column; and the early stop
on a pass that changes nothing. -/
theorem c2_witness :
    ((0 : ℚ) ≤ 1 ∧ (0 : ℚ) < 1 ∧ softThresholdCode 1 1 3 = softThresholdSpec 1 1 3)
  ∧ (lassoXjNorm (n := 1) (p := 0) (fun _ _ => 0) 0 = 0
      ∧ lassoCoordStep 1 (fun _ _ => 0) ![5] ![7] 0 = ![7])
  ∧ (lassoMaxDiff (p := 0) ![7]
        (lassoPass (n := 1) 1 (fun _ _ => 0) ![5] ![7]) < 1 / 10 ^ 4
      ∧ lassoIterate (n := 1) (p := 0) 1 (1 / 10 ^ 4) (fun _ _ => 0) ![5] 1 ![7]
          = lassoPass 1 (fun _ _ => 0) ![5] ![7]) := by
  have hnorm : lassoXjNorm (n := 1) (p := 0) (fun _ _ => 0) 0 = 0 := by
    simp [lassoXjNorm]
  have hstep : lassoCoordStep 1 (fun _ _ => (0 : ℚ)) ![5] ![7] 0 = ![7] :=
    c2_lasso_coordinate_descent.2.2.1 1 0 1 (fun _ _ => 0) ![5] ![7] 0 hnorm
  have hpass : lassoPass (n := 1) (p := 0) 1 (fun _ _ => 0) ![5] ![7] = ![7] := by
    simp [lassoPass, List.finRange_succ]
    exact hstep
  have hdiff : lassoMaxDiff (p := 0) ![7]
      (lassoPass (n := 1) 1 (fun _ _ => 0) ![5] ![7]) < 1 / 10 ^ 4 := by
    rw [hpass]
    simp [lassoMaxDiff, List.finRange_succ]
  exact ⟨⟨by norm_num, by norm_num,
      c2_lasso_coordinate_descent.2.1 1 1 3 (by norm_num) (by norm_num)⟩,
    ⟨hnorm, hstep⟩,
    ⟨hdiff, (c2_lasso_coordinate_descent.2.2.2.2 1 0 1 (1 / 10 ^ 4)
        (fun _ _ => 0) ![5] ![7] 0).1 hdiff⟩⟩

theorem ridgeSymmetrize_zero {n p : ℕ} (X : Fin n → Fin p → ℚ) :
    ridgeSymmetrize 0 ((withInterceptCol n p X)ᵀ * withInterceptCol n p X)
      = (withInterceptCol n p X)ᵀ * withInterceptCol n p X := by
  ext i j
  simp only [ridgeSymmetrize, Matrix.of_apply, ite_self, add_zero]
  rcases le_total i j with h | h
  · rw [min_eq_left h, max_eq_right h]
  · rw [min_eq_right h, max_eq_left h]
    exact xtx_symm X j i

/-- A matrix whose Cholesky factorization succeeds (all leading
principal minors positive) has positive determinant: the full-size
minor is the determinant itself. -/
theorem cholFactorizes_det_pos {m : ℕ} (A : Matrix (Fin (m + 1)) (Fin (m + 1)) ℚ)
    (h : cholFactorizes A) : 0 < A.det := by
  have hk := h (Fin.last m)
  unfold leadingMinor at hk
  have hid : (Fin.castLE (Fin.last m).isLt) = (id : Fin (m + 1) → Fin (m + 1)) := by
    funext i
    exact Fin.ext rfl
  rwa [hid, Matrix.submatrix_id_id] at hk

/-- C3: Ridge fitted with λ = 0 produces exactly the result of OLS on
the same data (exact equality in exact arithmetic, hence in particular
within `1e-6`), whenever the normal-equation matrix `XᵗX` is positive
definite (non-collinear features) — the case in which both solvers
succeed. -/
theorem c3_ridge_zero_matches_ols (n p : ℕ) (X : Fin n → Fin p → ℚ)
    (y : Fin n → ℚ) (hn : ¬ n = 0) (hp : ¬ p = 0)
    (hpd : cholFactorizes ((withInterceptCol n p X)ᵀ * withInterceptCol n p X)) :
    ridgeFitD 0 n p X n y = olsFitD n p X n y
  ∧ ∃ mdl, ridgeFitD 0 n p X n y = .ok mdl := by
  have hS := ridgeSymmetrize_zero X
  have hdet : ¬ ((withInterceptCol n p X)ᵀ * withInterceptCol n p X).det = 0 :=
    ne_of_gt (cholFactorizes_det_pos _ hpd)
  have hnp : ¬ (n = 0 ∨ p = 0) := by
    rintro (h | h)
    · exact hn h
    · exact hp h
  have hridge : ridgeFitD 0 n p X n y
      = .ok { intercept := linSolve
                ((withInterceptCol n p X)ᵀ * withInterceptCol n p X)
                ((withInterceptCol n p X)ᵀ.mulVec
                  (fun i => y (Fin.cast rfl i))) 0,
              coefficients := fun j => linSolve
                ((withInterceptCol n p X)ᵀ * withInterceptCol n p X)
                ((withInterceptCol n p X)ᵀ.mulVec
                  (fun i => y (Fin.cast rfl i))) j.succ } := by
    simp only [ridgeFitD, if_neg hn, hS, if_pos hpd]
    rw [dif_pos trivial]
  have hols : olsFitD n p X n y
      = .ok { intercept := linSolve
                ((withInterceptCol n p X)ᵀ * withInterceptCol n p X)
                ((withInterceptCol n p X)ᵀ.mulVec
                  (fun i => y (Fin.cast rfl i))) 0,
              coefficients := fun j => linSolve
                ((withInterceptCol n p X)ᵀ * withInterceptCol n p X)
                ((withInterceptCol n p X)ᵀ.mulVec
                  (fun i => y (Fin.cast rfl i))) j.succ } := by
    simp only [olsFitD, if_neg hnp]
    rw [dif_pos trivial, if_neg hdet]
  exact ⟨hridge.trans hols.symm, _, hridge⟩

/-- Witness for C3 at the concrete data `X = [[1],[2]]`,
`y = [1, 2]`. -/
theorem c3_witness :
    ¬ (2 : ℕ) = 0 ∧ ¬ (1 : ℕ) = 0
  ∧ cholFactorizes
      ((withInterceptCol 2 1 ![![1], ![2]])ᵀ * withInterceptCol 2 1 ![![1], ![2]])
  ∧ (ridgeFitD 0 2 1 ![![1], ![2]] 2 ![1, 2] = olsFitD 2 1 ![![1], ![2]] 2 ![1, 2]
      ∧ ∃ mdl, ridgeFitD 0 2 1 ![![1], ![2]] 2 ![1, 2] = .ok mdl) := by
  have hch : cholFactorizes
      ((withInterceptCol 2 1 ![![1], ![2]])ᵀ * withInterceptCol 2 1 ![![1], ![2]]) := by
    intro k
    fin_cases k <;>
        simp [leadingMinor, withInterceptCol, Matrix.mul_apply, Matrix.det_fin_one,
          Matrix.det_fin_two, Fin.sum_univ_two, Matrix.submatrix_apply] <;>
      norm_num
  exact ⟨by norm_num, by norm_num, hch,
    c3_ridge_zero_matches_ols 2 1 ![![1], ![2]] ![1, 2] (by norm_num) (by norm_num) hch⟩

/-- C7 (counterexample): `Ridge.Predict` on a freshly constructed,
never-fitted model does not fail with a not-trained error — its
interface has no error channel at all — but dereferences the nil
coefficient vector, a Go runtime panic. -/
theorem c7_counterexample :
    ridgePredictD (newRidge 1) 1 1 (fun _ _ => 1) = .panic .nilPointer
  ∧ ridgePredictD (newRidge 1) 1 1 (fun _ _ => 1) ≠ .err .notTrained := by
  have h : ridgePredictD (newRidge 1) 1 1 (fun _ _ => 1) = .panic .nilPointer := by
    simp [ridgePredictD, newRidge]
  refine ⟨h, ?_⟩
  rw [h]
  intro hx
  cases hx

/-- C7 (amended): only the slice-based OLS guards `Predict` with a
not-trained error; the gonum-based models (Ridge, Lasso, the gonum OLS,
Logistic, PLS) perform no trained-state check — their `Predict` never
returns an error value — and an untrained instance surfaces as a
nil-pointer panic (the nil coefficient vector, or for PLS the nil
weight matrix) as soon as the parameter read runs. -/
theorem c7_amended_not_trained :
    (∀ (m : OLSSlice) (X : List (List ℚ)), m.coefficients = [] →
        olsSlicePredict m X = .err .notTrained)
  ∧ (∀ (r : Ridge) (n p : ℕ) (X : Fin n → Fin p → ℚ), r.coefficients = none →
        p ≠ 0 → ridgePredictD r n p X = .panic .nilPointer)
  ∧ (∀ (l : LassoModel) (n p : ℕ) (X : Fin n → Fin p → ℚ),
        l.coefficients = none → p ≠ 0 →
        lassoPredictD l n p X = .panic .nilPointer)
  ∧ (∀ (o : OLSGonum) (n p : ℕ) (X : Fin n → Fin p → ℚ),
        o.coefficients = none → p ≠ 0 →
        olsGonumPredictD o n p X = .panic .nilPointer)
  ∧ (∀ (l : LogisticModel) (n p : ℕ) (X : Fin n → Fin p → ℝ),
        l.coefficients = none → p ≠ 0 →
        logisticPredictD l n p X = .panic .nilPointer)
  ∧ (∀ (pw K : ℕ) (m : PLSModel pw K) (n : ℕ) (X : Fin n → Fin pw → ℝ),
        m.xWeights = none → m.numComponents ≠ 0 →
        plsPredictD m n X = .panic .nilPointer)
  ∧ (∀ (r : Ridge) (n p : ℕ) (X : Fin n → Fin p → ℚ) (e : PredictError),
        ridgePredictD r n p X ≠ .err e)
  ∧ (∀ (l : LassoModel) (n p : ℕ) (X : Fin n → Fin p → ℚ) (e : PredictError),
        lassoPredictD l n p X ≠ .err e)
  ∧ (∀ (o : OLSGonum) (n p : ℕ) (X : Fin n → Fin p → ℚ) (e : PredictError),
        olsGonumPredictD o n p X ≠ .err e)
  ∧ (∀ (l : LogisticModel) (n p : ℕ) (X : Fin n → Fin p → ℝ) (e : PredictError),
        logisticPredictD l n p X ≠ .err e)
  ∧ (∀ (pw K : ℕ) (m : PLSModel pw K) (n : ℕ) (X : Fin n → Fin pw → ℝ)
        (e : PredictError), plsPredictD m n X ≠ .err e) := by
  refine ⟨fun m X h => by simp [olsSlicePredict, h],
    fun r n p X hc hp => by simp [ridgePredictD, hc, hp],
    fun l n p X hc hp => by simp [lassoPredictD, hc, hp],
    fun o n p X hc hp => by simp [olsGonumPredictD, hc, hp],
    fun l n p X hc hp => by simp [logisticPredictD, hc, hp],
    fun pw K m n X hx hk => by
      unfold plsPredictD
      rw [if_neg hk, hx],
    fun r n p X e => ?_, fun l n p X e => ?_, fun o n p X e => ?_,
    fun l n p X e => ?_, fun pw K m n X e => ?_⟩
  · unfold ridgePredictD
    cases r.coefficients <;> split <;> split <;> simp
  · unfold lassoPredictD
    cases l.coefficients <;> split <;> split <;> simp
  · unfold olsGonumPredictD
    cases o.coefficients <;> split <;> split <;> simp
  · unfold logisticPredictD
    cases l.coefficients <;> split <;> split <;> simp
  · unfold plsPredictD
    split
    · simp
    · cases hx : m.xWeights with
      | none => simp
      | some W =>
        cases hy : m.yLoadings with
        | none => simp
        | some Q => simp

/-- Witness for C7 (amended) at concrete untrained models of every
gonum variant. -/
theorem c7_witness :
    ({ coefficients := [], intercept := 0, fitIntercept := true } : OLSSlice).coefficients = []
  ∧ olsSlicePredict { coefficients := [], intercept := 0, fitIntercept := true }
      [[1]] = .err .notTrained
  ∧ (newRidge 2).coefficients = none
  ∧ (1 : ℕ) ≠ 0
  ∧ ridgePredictD (newRidge 2) 1 1 (fun _ _ => 1) = .panic .nilPointer
  ∧ (newLassoModel 1).coefficients = none
  ∧ lassoPredictD (newLassoModel 1) 1 1 (fun _ _ => 1) = .panic .nilPointer
  ∧ newOLSGonum.coefficients = none
  ∧ olsGonumPredictD newOLSGonum 1 1 (fun _ _ => 1) = .panic .nilPointer
  ∧ newLogisticModel.coefficients = none
  ∧ logisticPredictD newLogisticModel 1 1 (fun _ _ => 1) = .panic .nilPointer
  ∧ (newPLSModel 1 1 2).xWeights = none
  ∧ (newPLSModel 1 1 2).numComponents ≠ 0
  ∧ plsPredictD (newPLSModel 1 1 2) 1 (fun _ _ => 1) = .panic .nilPointer :=
  ⟨rfl, c7_amended_not_trained.1 _ [[1]] rfl, rfl, by norm_num,
   c7_amended_not_trained.2.1 (newRidge 2) 1 1 (fun _ _ => 1) rfl (by norm_num),
   rfl,
   c7_amended_not_trained.2.2.1 (newLassoModel 1) 1 1 (fun _ _ => 1) rfl (by norm_num),
   rfl,
   c7_amended_not_trained.2.2.2.1 newOLSGonum 1 1 (fun _ _ => 1) rfl (by norm_num),
   rfl,
   c7_amended_not_trained.2.2.2.2.1 newLogisticModel 1 1 (fun _ _ => 1) rfl (by norm_num),
   rfl, by decide,
   c7_amended_not_trained.2.2.2.2.2.1 1 1 (newPLSModel 1 1 2) 1 (fun _ _ => 1)
     rfl (by decide)⟩

/-- C6 (counterexample): `Ridge.Fit` called with a 2×1 feature matrix
and a length-1 target does not fail with a shape error: it runs the
factorization on `XᵗX + λ` and only then panics inside gonum's
`MulVec` (`mat.ErrShape`), which is a runtime panic, not a
`ShapeMismatch` error return. -/
theorem c6_counterexample :
    ridgeFitD 1 2 1 ![![1], ![2]] 1 ![1] = .panic .shape
  ∧ ridgeFitD 1 2 1 ![![1], ![2]] 1 ![1] ≠ .err .dimensionMismatch
  ∧ ridgeFitD 1 2 1 ![![1], ![2]] 1 ![1] ≠ .err .emptyMatrix := by
  have hch : cholFactorizes
      (ridgeSymmetrize 1 ((withInterceptCol 2 1 ![![1], ![2]])ᵀ
        * withInterceptCol 2 1 ![![1], ![2]])) := by
    intro k
    fin_cases k <;>
        simp [leadingMinor, ridgeSymmetrize, withInterceptCol, Matrix.mul_apply,
          Matrix.det_fin_one, Matrix.det_fin_two, Fin.sum_univ_two,
          Matrix.submatrix_apply] <;>
      norm_num
  have h : ridgeFitD 1 2 1 ![![1], ![2]] 1 ![1] = .panic .shape := by
    simp [ridgeFitD, hch]
  refine ⟨h, ?_, ?_⟩ <;> rw [h] <;> intro hx <;> cases hx

/-- C6 (amended): the OLS implementations check for an empty feature
matrix and mismatched `X`/`y` lengths and fail with the corresponding
shape errors before any computation; `Ridge.Fit` performs no such
validation — its only error return is the not-positive-definite one,
and shape problems surface as gonum panics. -/
theorem c6_amended_shape_checks :
    (∀ (fi : Bool) (y : List ℚ), olsSliceFit fi [] y = .error .emptyMatrix)
  ∧ (∀ (fi : Bool) (X : List (List ℚ)) (y : List ℚ), X.headD [] = [] →
        olsSliceFit fi X y = .error .emptyMatrix)
  ∧ (∀ (fi : Bool) (X : List (List ℚ)) (y : List ℚ),
        ¬(X = [] ∨ X.headD [] = []) → y.length ≠ X.length →
        olsSliceFit fi X y = .error .dimensionMismatch)
  ∧ (∀ (n p : ℕ) (X : Fin n → Fin p → ℚ) (m : ℕ) (y : Fin m → ℚ),
        n = 0 ∨ p = 0 → olsFitD n p X m y = .err .emptyMatrix)
  ∧ (∀ (n p : ℕ) (X : Fin n → Fin p → ℚ) (m : ℕ) (y : Fin m → ℚ),
        ¬(n = 0 ∨ p = 0) → m ≠ n → olsFitD n p X m y = .err .dimensionMismatch)
  ∧ (∀ (lam : ℚ) (n p : ℕ) (X : Fin n → Fin p → ℚ) (m : ℕ) (y : Fin m → ℚ)
        (e : FitError), ridgeFitD lam n p X m y = .err e →
        e = .notPositiveDefinite) := by
  refine ⟨?_, ?_, ?_, ?_, ?_, fun lam n p X m y => ridgeFitD_only_error lam n p X m y⟩
  · intro fi y
    rw [olsSliceFit, if_pos (Or.inl rfl)]
  · intro fi X y h
    rw [olsSliceFit, if_pos (Or.inr h)]
  · intro fi X y h1 h2
    rw [olsSliceFit, if_neg h1, if_pos h2]
  · intro n p X m y h
    rw [olsFitD, if_pos h]
  · intro n p X m y h1 h2
    rw [olsFitD, if_neg h1, dif_neg h2]

/-- Witness for C6 (amended) at concrete inputs: an empty matrix and a
mismatched pair for OLS, and the mismatched Ridge call that panics. -/
theorem c6_witness :
    olsSliceFit true [] [1] = .error .emptyMatrix
  ∧ ¬(([[1], [2]] : List (List ℚ)) = [] ∨ ([[1], [2]] : List (List ℚ)).headD [] = [])
  ∧ ([1] : List ℚ).length ≠ ([[1], [2]] : List (List ℚ)).length
  ∧ olsSliceFit true [[1], [2]] [1] = .error .dimensionMismatch
  ∧ (0 = 0 ∨ 3 = 0)
  ∧ olsFitD 0 3 (fun i _ => Fin.elim0 i) 0 (fun i => Fin.elim0 i) = .err .emptyMatrix :=
  ⟨c6_amended_shape_checks.1 true [1],
   by simp,
   by simp,
   c6_amended_shape_checks.2.2.1 true [[1], [2]] [1] (by simp) (by simp),
   Or.inl rfl,
   c6_amended_shape_checks.2.2.2.1 0 3 (fun i _ => Fin.elim0 i) 0
     (fun i => Fin.elim0 i) (Or.inl rfl)⟩

/-- C10: `Logistic.Score` classifies with the fixed threshold `0.5`
(probability at or above `0.5` maps to class `1.0`, else `0.0`), counts
a sample as correct only under exact equality of predicted class and
target, and returns that count divided by the sample count; any target
other than exactly `0.0` or `1.0` is therefore always counted
incorrect. -/
theorem c10_logistic_score_exact_matches {n p : ℕ} (b : ℝ) (w : Fin p → ℝ)
    (X : Fin n → Fin p → ℝ) (y : Fin n → ℝ) :
    (∀ (t : ℝ) (i : Fin n), logisticPredictClass b w X t i = 1
        ∨ logisticPredictClass b w X t i = 0)
  ∧ (∀ (t : ℝ) (i : Fin n), logisticPredictClass b w X t i = 1
        ↔ t ≤ logisticPredict b w X i)
  ∧ (logisticScore b w X y = ((Finset.univ.filter
        (fun i => logisticPredictClass b w X (1 / 2) i = y i)).card : ℝ) / (n : ℝ))
  ∧ (∀ i : Fin n, y i ≠ 0 → y i ≠ 1 →
        logisticPredictClass b w X (1 / 2) i ≠ y i) := by
  refine ⟨fun t i => ?_, fun t i => ?_, rfl, fun i h0 h1 => ?_⟩
  · unfold logisticPredictClass
    split
    · exact Or.inl rfl
    · exact Or.inr rfl
  · unfold logisticPredictClass
    split
    · rename_i h
      simpa using h
    · rename_i h
      simp only [ge_iff_le] at h
      simpa using h
  · rcases (show logisticPredictClass b w X (1 / 2) i = 1
        ∨ logisticPredictClass b w X (1 / 2) i = 0 from by
        unfold logisticPredictClass; split
        · exact Or.inl rfl
        · exact Or.inr rfl) with h | h
    · rw [h]; exact fun he => h1 he.symm
    · rw [h]; exact fun he => h0 he.symm

/-- Witness for C10 at a concrete model and a target value `0.5`, which
is neither `0.0` nor `1.0` and hence counted incorrect. -/
theorem c10_witness :
    ((1 : ℝ) / 2 ≠ 0) ∧ ((1 : ℝ) / 2 ≠ 1)
  ∧ logisticPredictClass (n := 1) (p := 1) 0 ![1] ![![1]] (1 / 2) 0 ≠ (1 : ℝ) / 2 :=
  ⟨by norm_num, by norm_num,
   (c10_logistic_score_exact_matches (n := 1) (p := 1) 0 ![1] ![![1]]
      (fun _ => 1 / 2)).2.2.2 0 (by norm_num) (by norm_num)⟩

end GoModel
